import Mathlib

/-!
# Verification of the mtg_leaderboard competitive scoring subsystem

Shallow embedding of the rating engine (`app/services/elo_calculator.py`,
`app/services/elo_service.py`), the tournament engine (`app/routers/events.py`)
and the balance analytic (`app/routers/analytics.py`), together with proofs of
the specification claims about them.

Conventions used throughout:
* Python floats are modelled as real numbers (`ℝ`); `round(x, 1)` is modelled
  as rounding to the nearest tenth (`round1`).
* Python dicts keyed by player id are modelled as association lists with
  dict semantics (`dictInsert` replaces the value of an existing key in
  place, otherwise appends).
* Database collections are modelled as lists of records; `find_one` is the
  first matching element, `save` replaces the first matching element.
* `random.shuffle` / random sort tie-breaks are modelled as nondeterministic
  permutation parameters, constrained by `List.Perm` hypotheses where a
  transition relation needs them.
* `datetime.utcnow()` timestamps are not modelled (real time); history
  entries carry the replay-relevant fields only.
-/

namespace MtgLeaderboard

/-- Rounding to one decimal place, modelling Python `round(x, 1)`. -/
noncomputable def round1 (x : ℝ) : ℝ :=
  ((round (10 * x) : ℤ) : ℝ) / 10

/-! ## Rating engine: `app/services/elo_calculator.py` -/

/-- `K_FACTOR = 32` from `elo_calculator.py`. -/
def K_FACTOR : ℕ := 32

/-- `DEFAULT_ELO = 1000.0` from `elo_calculator.py`. -/
noncomputable def DEFAULT_ELO : ℝ := 1000.0

/-- `calculate_expected_score(player_elo, opponent_elo)`:
`1 / (1 + 10 ** ((opponent_elo - player_elo) / 400))`. -/
noncomputable def calculate_expected_score (player_elo opponent_elo : ℝ) : ℝ :=
  1 / (1 + (10 : ℝ) ^ ((opponent_elo - player_elo) / 400))

/-- The inner loop of `calculate_multiplayer_elo_changes`: the unrounded
total change accumulated for one player (`total_change`), folding over all
`(opponent_id, opponent_elo)` pairs and skipping the player itself.
`k_per_comparison = K_FACTOR / (n - 1)` with `n = player_elos.length`. -/
noncomputable def player_total_change (player_elos : List (String × ℝ))
    (winner_id : String) (player_id : String) (player_elo : ℝ) : ℝ :=
  player_elos.foldl
    (fun total q =>
      if player_id = q.1 then total
      else
        let expected := calculate_expected_score player_elo q.2
        let actual : ℝ :=
          if player_id = winner_id then 1.0
          else if q.1 = winner_id then 0.0
          else 0.5
        total + ((K_FACTOR : ℝ) / ((player_elos.length - 1 : ℕ) : ℝ)) * (actual - expected))
    0

/-- Python dict assignment `d[k] = v` on an association list: replace the
value at the first occurrence of the key, otherwise append. -/
def dictInsert {β : Type} : List (String × β) → String → β → List (String × β)
  | [], k, v => [(k, v)]
  | q :: t, k, v => if q.1 = k then (k, v) :: t else q :: dictInsert t k v

/-- `calculate_multiplayer_elo_changes(player_elos, winner_id)`: returns the
empty dict for fewer than 3 players, otherwise one rounded delta per player,
assembled in iteration order with dict semantics. -/
noncomputable def calculate_multiplayer_elo_changes
    (player_elos : List (String × ℝ)) (winner_id : String) : List (String × ℝ) :=
  if player_elos.length < 3 then []
  else
    player_elos.foldl
      (fun acc p =>
        dictInsert acc p.1 (round1 (player_total_change player_elos winner_id p.1 p.2)))
      []

/-- The delta formula exactly as the specification words it:
`delta(X) = Σ_{Y ≠ X} (BASE_K/(N−1)) × (actual(X,Y) − 1/(1+10^((ratingY−ratingX)/400)))`
with `actual(X,Y) = 1` if `X` is the winner, `0` if `Y` is the winner and
`0.5` otherwise.  Used only to compare against the source definition. -/
noncomputable def spec_delta (player_elos : List (String × ℝ))
    (winner_id : String) (x : String × ℝ) : ℝ :=
  ((player_elos.filter (fun y => y.1 ≠ x.1)).map
    (fun y =>
      (32 / ((player_elos.length : ℝ) - 1)) *
        ((if x.1 = winner_id then 1 else if y.1 = winner_id then 0 else 1 / 2) -
          1 / (1 + (10 : ℝ) ^ ((y.2 - x.2) / 400))))).sum

/-! ### Generic list lemmas used by the rating-engine proofs -/

theorem foldl_add_init {α : Type} (g : α → ℝ) (p : α → Bool) :
    ∀ (l : List α) (a : ℝ),
      l.foldl (fun s y => if p y then s else s + g y) a =
        a + ((l.filter (fun y => !(p y))).map g).sum := by
  intro l
  induction l with
  | nil => intro a; simp
  | cons x t ih =>
    intro a
    by_cases hx : p x
    · simp [List.foldl_cons, hx, ih]
    · simp only [List.foldl_cons, hx, if_neg, List.filter_cons]
      simp [hx, ih, add_assoc]

theorem sum_map_add {α : Type} (f g : α → ℝ) (l : List α) :
    (l.map (fun x => f x + g x)).sum = (l.map f).sum + (l.map g).sum := by
  induction l with
  | nil => simp
  | cons x t ih => simp [ih]; ring

theorem sum_map_eq_zero {α : Type} (f : α → ℝ) (l : List α)
    (h : ∀ x ∈ l, f x = 0) : (l.map f).sum = 0 := by
  induction l with
  | nil => simp
  | cons x t ih =>
    simp only [List.map_cons, List.sum_cons]
    rw [h x (by simp), ih (fun y hy => h y (by simp [hy]))]
    simp

theorem abs_sum_le_sum_abs_list (l : List ℝ) : |l.sum| ≤ (l.map (fun x => |x|)).sum := by
  induction l with
  | nil => simp
  | cons x t ih =>
    simp only [List.sum_cons, List.map_cons]
    calc |x + t.sum| ≤ |x| + |t.sum| := abs_add _ _
    _ ≤ |x| + (t.map (fun x => |x|)).sum := by linarith

theorem sum_le_length_mul (l : List ℝ) (c : ℝ) (h : ∀ x ∈ l, x ≤ c) :
    l.sum ≤ (l.length : ℝ) * c := by
  induction l with
  | nil => simp
  | cons x t ih =>
    simp only [List.sum_cons, List.length_cons]
    have h1 : x ≤ c := h x (by simp)
    have h2 : t.sum ≤ (t.length : ℝ) * c := ih (fun y hy => h y (by simp [hy]))
    push_cast
    nlinarith

/-! ### Dict-building and lookup lemmas -/

theorem dictInsert_of_not_mem {β : Type} (l : List (String × β)) (k : String) (v : β)
    (h : k ∉ l.map Prod.fst) : dictInsert l k v = l ++ [(k, v)] := by
  induction l with
  | nil => rfl
  | cons q t ih =>
    simp only [List.map_cons, List.mem_cons, not_or] at h
    have hqk : ¬ q.1 = k := fun he => h.1 he.symm
    simp only [dictInsert, if_neg hqk, List.cons_append]
    rw [ih h.2]

theorem foldl_dictInsert_eq_map {β : Type} (g : String × ℝ → β) :
    ∀ (l : List (String × ℝ)) (acc : List (String × β)),
      (l.map Prod.fst).Nodup →
      (∀ p ∈ l, p.1 ∉ acc.map Prod.fst) →
      l.foldl (fun acc p => dictInsert acc p.1 (g p)) acc =
        acc ++ l.map (fun p => (p.1, g p)) := by
  intro l
  induction l with
  | nil => intro acc _ _; simp
  | cons p t ih =>
    intro acc hnd hdisj
    simp only [List.map_cons, List.nodup_cons] at hnd
    simp only [List.foldl_cons]
    rw [dictInsert_of_not_mem acc p.1 (g p) (hdisj p (by simp))]
    rw [ih (acc ++ [(p.1, g p)]) hnd.2 ?_]
    · simp
    · intro q hq
      simp only [List.map_append, List.mem_append, List.map_cons, List.map_nil,
        List.mem_singleton, not_or]
      refine ⟨hdisj q (by simp [hq]), ?_⟩
      intro hqe
      exact hnd.1 (hqe ▸ List.mem_map_of_mem Prod.fst hq)

theorem lookup_map_of_nodup {β : Type} (g : String × ℝ → β) :
    ∀ (l : List (String × ℝ)) (x : String × ℝ),
      (l.map Prod.fst).Nodup → x ∈ l →
      (l.map (fun p => (p.1, g p))).lookup x.1 = some (g x) := by
  intro l
  induction l with
  | nil => intro x _ hx; cases hx
  | cons a t ih =>
    intro x hnd hx
    simp only [List.map_cons, List.nodup_cons] at hnd
    by_cases he : x.1 = a.1
    · have hxa : x = a := by
        rcases List.mem_cons.mp hx with h | h
        · exact h
        · have hmem : a.1 ∈ List.map Prod.fst t := he ▸ List.mem_map_of_mem Prod.fst h
          exact absurd hmem hnd.1
      subst hxa
      simp [List.lookup]
    · have hxt : x ∈ t := by
        rcases List.mem_cons.mp hx with h | h
        · exact absurd (congrArg Prod.fst h) he
        · exact h
      have hbeq : (x.1 == a.1) = false := beq_eq_false_iff_ne.mpr he
      simp only [List.map_cons, List.lookup, hbeq]
      exact ih x hnd.2 hxt

/-! ### Fold-to-sum conversion for the per-player inner loop -/

theorem foldl_skip_eq_sum {α : Type} (key : α → Prop) [DecidablePred key] (F : α → ℝ) :
    ∀ (l : List α) (a : ℝ),
      l.foldl (fun s q => if key q then s else s + F q) a =
        a + ((l.filter (fun q => ¬ key q)).map F).sum := by
  intro l
  induction l with
  | nil => intro a; simp
  | cons x t ih =>
    intro a
    by_cases hx : key x
    · simp only [List.foldl_cons, if_pos hx, List.filter_cons]
      simp [hx, ih]
    · simp only [List.foldl_cons, if_neg hx, List.filter_cons]
      simp [hx, ih, add_assoc]

theorem player_total_change_eq (l : List (String × ℝ)) (w pid : String) (pelo : ℝ) :
    player_total_change l w pid pelo =
      ((l.filter (fun q => q.1 ≠ pid)).map
        (fun q =>
          ((K_FACTOR : ℝ) / ((l.length - 1 : ℕ) : ℝ)) *
            ((if pid = w then (1.0 : ℝ) else if q.1 = w then 0.0 else 0.5) -
              calculate_expected_score pelo q.2))).sum := by
  unfold player_total_change
  rw [show
      (l.foldl
        (fun total q =>
          if pid = q.1 then total
          else
            let expected := calculate_expected_score pelo q.2
            let actual : ℝ := if pid = w then 1.0 else if q.1 = w then 0.0 else 0.5
            total + ((K_FACTOR : ℝ) / ((l.length - 1 : ℕ) : ℝ)) * (actual - expected))
        0) =
      (l.foldl
        (fun total q =>
          if pid = q.1 then total
          else total + ((K_FACTOR : ℝ) / ((l.length - 1 : ℕ) : ℝ)) *
            ((if pid = w then (1.0 : ℝ) else if q.1 = w then 0.0 else 0.5) -
              calculate_expected_score pelo q.2))
        0) from rfl]
  rw [foldl_skip_eq_sum (fun q => pid = q.1)
    (fun q => ((K_FACTOR : ℝ) / ((l.length - 1 : ℕ) : ℝ)) *
      ((if pid = w then (1.0 : ℝ) else if q.1 = w then 0.0 else 0.5) -
        calculate_expected_score pelo q.2)) l 0]
  rw [zero_add]
  congr 1
  congr 1
  apply List.filter_congr
  intro q _
  exact decide_eq_decide.mpr (not_congr eq_comm)

/-! ### Symmetry of the expected score -/

theorem expected_score_add_symm (a b : ℝ) :
    calculate_expected_score a b + calculate_expected_score b a = 1 := by
  unfold calculate_expected_score
  have h10 : (0 : ℝ) < 10 := by norm_num
  set t : ℝ := (10 : ℝ) ^ ((b - a) / 400) with ht
  have htpos : 0 < t := Real.rpow_pos_of_pos h10 _
  have hswap : (10 : ℝ) ^ ((a - b) / 400) = t⁻¹ := by
    rw [ht, ← Real.rpow_neg (le_of_lt h10)]
    ring_nf
  rw [hswap]
  have h1 : (1 : ℝ) + t ≠ 0 := by positivity
  have h2 : (1 : ℝ) + t⁻¹ ≠ 0 := by positivity
  field_simp
  ring

/-! ### Pairwise zero-sum -/

theorem pairwise_sum_zero {F : (String × ℝ) → (String × ℝ) → ℝ}
    (hanti : ∀ p q, p.1 ≠ q.1 → F p q + F q p = 0) :
    ∀ (l : List (String × ℝ)), (l.map Prod.fst).Nodup →
      (l.map (fun p => ((l.filter (fun q => q.1 ≠ p.1)).map (F p)).sum)).sum = 0 := by
  intro l
  induction l with
  | nil => intro _; simp
  | cons a t ih =>
    intro hnd
    simp only [List.map_cons, List.nodup_cons] at hnd
    have hkeys : ∀ q ∈ t, q.1 ≠ a.1 := by
      intro q hq he
      exact hnd.1 (he ▸ List.mem_map_of_mem Prod.fst hq)
    simp only [List.map_cons, List.sum_cons]
    have hinner_a :
        (((a :: t).filter (fun q => q.1 ≠ a.1)).map (F a)).sum = (t.map (F a)).sum := by
      have : (a :: t).filter (fun q => q.1 ≠ a.1) = t := by
        simp only [List.filter_cons]
        rw [if_neg (by simp)]
        exact List.filter_eq_self.mpr (fun q hq => by simpa using hkeys q hq)
      rw [this]
    have hinner_t :
        ∀ p ∈ t,
          (((a :: t).filter (fun q => q.1 ≠ p.1)).map (F p)).sum =
            F p a + ((t.filter (fun q => q.1 ≠ p.1)).map (F p)).sum := by
      intro p hp
      have hap : a.1 ≠ p.1 := fun he => hkeys p hp he.symm
      simp only [List.filter_cons]
      rw [if_pos (by simpa using hap)]
      simp
    rw [hinner_a,
      List.map_congr_left hinner_t,
      sum_map_add (fun p => F p a)
        (fun p => ((t.filter (fun q => q.1 ≠ p.1)).map (F p)).sum) t,
      ih hnd.2]
    have hzero : (t.map (F a)).sum + (t.map (fun p => F p a)).sum = 0 := by
      rw [← sum_map_add (F a) (fun p => F p a) t]
      exact sum_map_eq_zero _ t (fun q hq => hanti a q (fun he => hkeys q hq he.symm))
    linarith

theorem changes_eq_map (l : List (String × ℝ)) (w : String)
    (hnd : (l.map Prod.fst).Nodup) (h3 : 3 ≤ l.length) :
    calculate_multiplayer_elo_changes l w =
      l.map (fun p => (p.1, round1 (player_total_change l w p.1 p.2))) := by
  unfold calculate_multiplayer_elo_changes
  rw [if_neg (by omega)]
  rw [foldl_dictInsert_eq_map (fun p => round1 (player_total_change l w p.1 p.2)) l []
    hnd (by simp)]
  simp

theorem spec_delta_eq_src (l : List (String × ℝ)) (w : String) (x : String × ℝ)
    (h3 : 3 ≤ l.length) :
    spec_delta l w x = player_total_change l w x.1 x.2 := by
  rw [player_total_change_eq]
  unfold spec_delta calculate_expected_score
  have h1 : 1 ≤ l.length := by omega
  have hc : ((l.length - 1 : ℕ) : ℝ) = (l.length : ℝ) - 1 := by
    push_cast [Nat.cast_sub h1]
    ring
  congr 1
  apply List.map_congr_left
  intro q _
  rw [hc]
  simp only [K_FACTOR]
  split_ifs <;> norm_num

theorem abs_round1_sub (x : ℝ) : |round1 x - x| ≤ 1 / 20 := by
  have h := abs_sub_round (10 * x)
  rw [abs_sub_comm] at h
  unfold round1
  have hrw : ((round (10 * x) : ℤ) : ℝ) / 10 - x =
      (((round (10 * x) : ℤ) : ℝ) - 10 * x) / 10 := by ring
  rw [hrw, abs_div]
  have h10 : |(10 : ℝ)| = 10 := by norm_num
  rw [h10]
  linarith

/-- C1: for every input list of `N ≥ 3` participants with pairwise-distinct ids
and a designated winner among them, `calculate_multiplayer_elo_changes` returns
for each participant `X` exactly the specification's delta
`Σ_{Y ≠ X} (32/(N−1)) · (actual(X,Y) − 1/(1+10^((ratingY−ratingX)/400)))`
rounded to one decimal place, and for fewer than 3 participants it returns the
empty map. -/
theorem elo_changes_match_spec_formula (l : List (String × ℝ)) (w : String)
    (hnd : (l.map Prod.fst).Nodup) :
    (l.length < 3 → calculate_multiplayer_elo_changes l w = []) ∧
    (3 ≤ l.length → w ∈ l.map Prod.fst → ∀ x ∈ l,
      (calculate_multiplayer_elo_changes l w).lookup x.1 =
        some (round1 (spec_delta l w x))) := by
  constructor
  · intro h
    unfold calculate_multiplayer_elo_changes
    rw [if_pos h]
  · intro h3 _ x hx
    rw [changes_eq_map l w hnd h3,
      lookup_map_of_nodup (fun p => round1 (player_total_change l w p.1 p.2)) l x hnd hx,
      spec_delta_eq_src l w x h3]

/-- Witness for C1 at a concrete 3-player input. -/
theorem elo_changes_match_spec_formula_witness :
    (([("a", (1000 : ℝ)), ("b", 1050), ("c", 950)].map Prod.fst).Nodup) ∧
    (([("a", (1000 : ℝ)), ("b", 1050), ("c", 950)] : List (String × ℝ)).length < 3 →
      calculate_multiplayer_elo_changes [("a", (1000 : ℝ)), ("b", 1050), ("c", 950)] "a" = []) ∧
    (3 ≤ ([("a", (1000 : ℝ)), ("b", 1050), ("c", 950)] : List (String × ℝ)).length →
      "a" ∈ [("a", (1000 : ℝ)), ("b", 1050), ("c", 950)].map Prod.fst →
      ∀ x ∈ ([("a", (1000 : ℝ)), ("b", 1050), ("c", 950)] : List (String × ℝ)),
        (calculate_multiplayer_elo_changes [("a", (1000 : ℝ)), ("b", 1050), ("c", 950)] "a").lookup x.1 =
          some (round1 (spec_delta [("a", (1000 : ℝ)), ("b", 1050), ("c", 950)] "a" x))) := by
  refine ⟨by decide, ?_, ?_⟩
  · exact (elo_changes_match_spec_formula _ "a" (by decide)).1
  · exact (elo_changes_match_spec_formula _ "a" (by decide)).2

/-- C2: for every match of 3 to 6 participants with pairwise-distinct ids and
the winner among them, the deltas of `calculate_multiplayer_elo_changes` sum to
exactly zero before the per-player rounding, and the rounded deltas sum to at
most `N · 0.05` in absolute value (the accumulated rounding tolerance). -/
theorem elo_changes_zero_sum (l : List (String × ℝ)) (w : String)
    (hnd : (l.map Prod.fst).Nodup) (h3 : 3 ≤ l.length) (h6 : l.length ≤ 6)
    (hw : w ∈ l.map Prod.fst) :
    (l.map (fun p => player_total_change l w p.1 p.2)).sum = 0 ∧
    |((calculate_multiplayer_elo_changes l w).map Prod.snd).sum| ≤
      (l.length : ℝ) * (1 / 20) := by
  have h1 : (1.0 : ℝ) = 1 := by norm_num
  have h0 : (0.0 : ℝ) = 0 := by norm_num
  have hhalf : (0.5 : ℝ) = 1 / 2 := by norm_num
  have hzero : (l.map (fun p => player_total_change l w p.1 p.2)).sum = 0 := by
    rw [List.map_congr_left (fun p (_ : p ∈ l) => player_total_change_eq l w p.1 p.2)]
    apply pairwise_sum_zero
      (F := fun p q => ((K_FACTOR : ℝ) / ((l.length - 1 : ℕ) : ℝ)) *
        ((if p.1 = w then (1.0 : ℝ) else if q.1 = w then 0.0 else 0.5) -
          calculate_expected_score p.2 q.2))
    · intro p q hpq
      have hE := expected_score_add_symm p.2 q.2
      by_cases hp : p.1 = w
      · have hq : ¬ q.1 = w := fun h => hpq (hp.trans h.symm)
        simp only [if_pos hp, if_neg hq, h1, h0]
        linear_combination (-((K_FACTOR : ℝ) / ((l.length - 1 : ℕ) : ℝ))) * hE
      · by_cases hq : q.1 = w
        · simp only [if_neg hp, if_pos hq, h1, h0]
          linear_combination (-((K_FACTOR : ℝ) / ((l.length - 1 : ℕ) : ℝ))) * hE
        · simp only [if_neg hp, if_neg hq, hhalf]
          linear_combination (-((K_FACTOR : ℝ) / ((l.length - 1 : ℕ) : ℝ))) * hE
    · exact hnd
  refine ⟨hzero, ?_⟩
  rw [changes_eq_map l w hnd h3, List.map_map]
  show |(l.map (fun p => round1 (player_total_change l w p.1 p.2))).sum| ≤ _
  have hdecomp : (l.map (fun p => round1 (player_total_change l w p.1 p.2))).sum =
      (l.map (fun p => round1 (player_total_change l w p.1 p.2) -
        player_total_change l w p.1 p.2)).sum +
      (l.map (fun p => player_total_change l w p.1 p.2)).sum := by
    rw [← sum_map_add]
    congr 1
    apply List.map_congr_left
    intro p _
    ring
  rw [hdecomp, hzero, add_zero]
  calc |(l.map (fun p => round1 (player_total_change l w p.1 p.2) -
          player_total_change l w p.1 p.2)).sum|
      ≤ ((l.map (fun p => round1 (player_total_change l w p.1 p.2) -
          player_total_change l w p.1 p.2)).map (fun x => |x|)).sum :=
        abs_sum_le_sum_abs_list _
    _ = (l.map (fun p => |round1 (player_total_change l w p.1 p.2) -
          player_total_change l w p.1 p.2|)).sum := by
        rw [List.map_map]; rfl
    _ ≤ ((l.map (fun p => |round1 (player_total_change l w p.1 p.2) -
          player_total_change l w p.1 p.2|)).length : ℝ) * (1 / 20) := by
        apply sum_le_length_mul
        intro x hx
        rcases List.mem_map.mp hx with ⟨p, _, rfl⟩
        exact abs_round1_sub _
    _ = (l.length : ℝ) * (1 / 20) := by rw [List.length_map]

/-- Witness for C2 at the spec's example input: ratings
`(1000, 1050, 950, 1000)` with the 950-rated player as winner. -/
theorem elo_changes_zero_sum_witness :
    (([("p1", (1000 : ℝ)), ("p2", 1050), ("p3", 950), ("p4", 1000)].map Prod.fst).Nodup) ∧
    3 ≤ ([("p1", (1000 : ℝ)), ("p2", 1050), ("p3", 950), ("p4", 1000)] : List (String × ℝ)).length ∧
    ([("p1", (1000 : ℝ)), ("p2", 1050), ("p3", 950), ("p4", 1000)] : List (String × ℝ)).length ≤ 6 ∧
    "p3" ∈ [("p1", (1000 : ℝ)), ("p2", 1050), ("p3", 950), ("p4", 1000)].map Prod.fst ∧
    (([("p1", (1000 : ℝ)), ("p2", 1050), ("p3", 950), ("p4", 1000)].map
        (fun p => player_total_change [("p1", (1000 : ℝ)), ("p2", 1050), ("p3", 950), ("p4", 1000)] "p3" p.1 p.2)).sum = 0 ∧
      |((calculate_multiplayer_elo_changes [("p1", (1000 : ℝ)), ("p2", 1050), ("p3", 950), ("p4", 1000)] "p3").map Prod.snd).sum| ≤
        (([("p1", (1000 : ℝ)), ("p2", 1050), ("p3", 950), ("p4", 1000)] : List (String × ℝ)).length : ℝ) * (1 / 20)) :=
  ⟨by decide, by decide, by decide, by decide,
    elo_changes_zero_sum _ "p3" (by decide) (by decide) (by decide) (by decide)⟩

/-! ## Rating engine service layer: `app/services/elo_service.py`

The three Beanie collections touched by the service are modelled as lists:
`ratings` (`PlayerEloRating`), `history` (`EloHistoryEntry`) and `matches`
(`Match`, restricted to the fields the rating engine reads).  `find_one` is
the first matching element and `save` replaces the first matching element. -/

structure PlayerEloRating where
  player_id : String
  pod_id : String
  current_elo : ℝ
  peak_elo : ℝ
  lowest_elo : ℝ
  games_rated : ℕ
  last_elo_change : ℝ

structure EloHistoryEntry where
  player_id : String
  pod_id : String
  match_id : String
  elo_before : ℝ
  elo_after : ℝ
  elo_change : ℝ

/-- The fields of a stored `Match` document read by the rating engine.
`players` is the list of `mp.player_id`; dates are abstract tick counts. -/
structure StoredMatch where
  id : String
  players : List String
  winner_player_id : String
  pod_id : Option String
  match_date : ℕ
  created_at : ℕ

structure EloDB where
  ratings : List PlayerEloRating
  history : List EloHistoryEntry
  match_docs : List StoredMatch

/-- Replace the first element satisfying `q` by its image under `f`
(modelling `find_one` followed by `save`, and also the in-place mutation of
a list element found by a Python `for`/`break` scan). -/
def updateFirstBy {α : Type} (q : α → Bool) (f : α → α) : List α → List α
  | [] => []
  | a :: t => if q a then f a :: t else a :: updateFirstBy q f t

/-- `get_or_create_player_elo(player_id, pod_id)` acting on the ratings
collection: returns the found-or-created rating and the updated collection. -/
noncomputable def get_or_create_player_elo (ratings : List PlayerEloRating)
    (player_id pod_id : String) : PlayerEloRating × List PlayerEloRating :=
  match ratings.find? (fun r => r.player_id == player_id && r.pod_id == pod_id) with
  | some r => (r, ratings)
  | none =>
      let r : PlayerEloRating :=
        { player_id := player_id, pod_id := pod_id,
          current_elo := DEFAULT_ELO, peak_elo := DEFAULT_ELO, lowest_elo := DEFAULT_ELO,
          games_rated := 0, last_elo_change := 0 }
      (r, ratings ++ [r])

/-- The first loop of `process_match_elo`: look up (creating on demand) each
participant's rating and collect `(player_id, current_elo)` pairs. -/
noncomputable def collect_player_elos (m_players : List String) (pod_id : String)
    (ratings : List PlayerEloRating) : List (String × ℝ) × List PlayerEloRating :=
  m_players.foldl
    (fun acc mp =>
      let gr := get_or_create_player_elo acc.2 mp pod_id
      (acc.1 ++ [(mp, gr.1.current_elo)], gr.2))
    ([], ratings)

/-- One iteration of the second loop of `process_match_elo`: apply one
`(player_id, change)` pair to the ratings collection and append the history
entry.  Mirrors the source: `current += change`, then peak/lowest against the
updated current, `games_rated += 1`, `last_elo_change = change`. -/
noncomputable def apply_elo_change (pod_id match_id : String)
    (st : List PlayerEloRating × List EloHistoryEntry) (pc : String × ℝ) :
    List PlayerEloRating × List EloHistoryEntry :=
  match st.1.find? (fun r => r.player_id == pc.1 && r.pod_id == pod_id) with
  | none => st
  | some r =>
      let updated : PlayerEloRating :=
        { r with
          current_elo := r.current_elo + pc.2,
          last_elo_change := pc.2,
          games_rated := r.games_rated + 1,
          peak_elo := max r.peak_elo (r.current_elo + pc.2),
          lowest_elo := min r.lowest_elo (r.current_elo + pc.2) }
      let entry : EloHistoryEntry :=
        { player_id := pc.1, pod_id := pod_id, match_id := match_id,
          elo_before := r.current_elo, elo_after := r.current_elo + pc.2,
          elo_change := pc.2 }
      (updateFirstBy (fun s => s.player_id == pc.1 && s.pod_id == pod_id)
          (fun _ => updated) st.1,
        st.2 ++ [entry])

/-- The effect of `process_match_elo(match)` on the ratings and history
collections: no-op when `match.pod_id` is falsy (absent or empty string),
otherwise collect elos, compute the changes and apply them. -/
noncomputable def process_match_core
    (rh : List PlayerEloRating × List EloHistoryEntry) (m : StoredMatch) :
    List PlayerEloRating × List EloHistoryEntry :=
  match m.pod_id with
  | none => rh
  | some pid =>
      if pid = "" then rh
      else
        let ce := collect_player_elos m.players pid rh.1
        let changes := calculate_multiplayer_elo_changes ce.1 m.winner_player_id
        changes.foldl (apply_elo_change pid m.id) (ce.2, rh.2)

/-- `process_match_elo(match)` as a whole-database step (the matches
collection is never written). -/
noncomputable def process_match_elo (db : EloDB) (m : StoredMatch) : EloDB :=
  { db with
    ratings := (process_match_core (db.ratings, db.history) m).1,
    history := (process_match_core (db.ratings, db.history) m).2 }

/-- Deterministic model of the `sort(Match.created_at)` query: insertion sort
ascending by `created_at`. -/
def insertByCreated (m : StoredMatch) : List StoredMatch → List StoredMatch
  | [] => [m]
  | x :: t => if m.created_at < x.created_at then m :: x :: t else x :: insertByCreated m t

def sortByCreated (l : List StoredMatch) : List StoredMatch :=
  l.foldr insertByCreated []

/-- `recalculate_pod_elo(pod_id)`: delete all ratings and history for the
pod, fetch the pod's matches ordered by `created_at` (creation sequence, not
`match_date`), and replay `process_match_elo` over them in order. -/
noncomputable def recalculate_pod_elo (db : EloDB) (pod_id : String) : EloDB :=
  let wiped : EloDB :=
    { db with
      ratings := db.ratings.filter (fun r => !(r.pod_id == pod_id)),
      history := db.history.filter (fun h => !(h.pod_id == pod_id)) }
  (sortByCreated (db.match_docs.filter (fun m => m.pod_id == some pod_id))).foldl
    process_match_elo wiped

/-! ### Lemmas about the effect of replay on the pod partition -/

theorem filter_updateFirstBy {α : Type} (p q : α → Bool) (f : α → α)
    (h : ∀ x, q x = true → p x = false ∧ p (f x) = false) :
    ∀ l : List α, (updateFirstBy q f l).filter p = l.filter p := by
  intro l
  induction l with
  | nil => rfl
  | cons a t ih =>
    by_cases hq : q a = true
    · obtain ⟨h1, h2⟩ := h a hq
      simp [updateFirstBy, hq, List.filter_cons, h1, h2]
    · simp only [updateFirstBy, if_neg hq, List.filter_cons]
      by_cases hp : p a = true <;> simp [hp, ih]

theorem filter_self_idem {α : Type} (p : α → Bool) (l : List α) :
    (l.filter p).filter p = l.filter p :=
  List.filter_eq_self.mpr (fun a ha => (List.mem_filter.mp ha).2)

theorem get_or_create_filter_nonpod (ratings : List PlayerEloRating) (pid pod : String) :
    ((get_or_create_player_elo ratings pid pod).2).filter (fun r => !(r.pod_id == pod)) =
      ratings.filter (fun r => !(r.pod_id == pod)) := by
  unfold get_or_create_player_elo
  cases hf : ratings.find? (fun r => r.player_id == pid && r.pod_id == pod) with
  | some r => simp
  | none => simp [List.filter_append]

theorem collect_aux_filter_nonpod (pod : String) :
    ∀ (players : List String) (a : List (String × ℝ)) (ratings : List PlayerEloRating),
      ((players.foldl
          (fun acc mp =>
            let gr := get_or_create_player_elo acc.2 mp pod
            (acc.1 ++ [(mp, gr.1.current_elo)], gr.2))
          (a, ratings)).2).filter (fun r => !(r.pod_id == pod)) =
        ratings.filter (fun r => !(r.pod_id == pod)) := by
  intro players
  induction players with
  | nil => intro a ratings; rfl
  | cons mp t ih =>
    intro a ratings
    simp only [List.foldl_cons]
    rw [ih]
    exact get_or_create_filter_nonpod ratings mp pod

theorem collect_filter_nonpod (pod : String) (players : List String)
    (ratings : List PlayerEloRating) :
    ((collect_player_elos players pod ratings).2).filter (fun r => !(r.pod_id == pod)) =
      ratings.filter (fun r => !(r.pod_id == pod)) :=
  collect_aux_filter_nonpod pod players [] ratings

theorem apply_filter_nonpod (pod mid : String)
    (st : List PlayerEloRating × List EloHistoryEntry) (pc : String × ℝ) :
    (((apply_elo_change pod mid st pc).1).filter (fun r => !(r.pod_id == pod)) =
      st.1.filter (fun r => !(r.pod_id == pod))) ∧
    (((apply_elo_change pod mid st pc).2).filter (fun e => !(e.pod_id == pod)) =
      st.2.filter (fun e => !(e.pod_id == pod))) := by
  unfold apply_elo_change
  cases hf : st.1.find? (fun r => r.player_id == pc.1 && r.pod_id == pod) with
  | none => exact ⟨rfl, rfl⟩
  | some r =>
    have hr := List.find?_some hf
    have hrpod : (r.pod_id == pod) = true := (Bool.and_eq_true _ _ |>.mp hr).2
    constructor
    · apply filter_updateFirstBy
      intro x hx
      have hxpod : (x.pod_id == pod) = true := (Bool.and_eq_true _ _ |>.mp hx).2
      constructor
      · simp [hxpod]
      · simp [hrpod]
    · simp [List.filter_append, hrpod]

theorem foldl_apply_filter_nonpod (pod mid : String) :
    ∀ (changes : List (String × ℝ)) (st : List PlayerEloRating × List EloHistoryEntry),
      (((changes.foldl (apply_elo_change pod mid) st).1).filter
          (fun r => !(r.pod_id == pod)) =
        st.1.filter (fun r => !(r.pod_id == pod))) ∧
      (((changes.foldl (apply_elo_change pod mid) st).2).filter
          (fun e => !(e.pod_id == pod)) =
        st.2.filter (fun e => !(e.pod_id == pod))) := by
  intro changes
  induction changes with
  | nil => intro st; exact ⟨rfl, rfl⟩
  | cons pc t ih =>
    intro st
    simp only [List.foldl_cons]
    obtain ⟨h1, h2⟩ := ih (apply_elo_change pod mid st pc)
    obtain ⟨a1, a2⟩ := apply_filter_nonpod pod mid st pc
    exact ⟨h1.trans a1, h2.trans a2⟩

theorem process_core_filter_nonpod (pod : String)
    (rh : List PlayerEloRating × List EloHistoryEntry) (m : StoredMatch)
    (hm : m.pod_id = some pod) :
    ((process_match_core rh m).1.filter (fun r => !(r.pod_id == pod)) =
      rh.1.filter (fun r => !(r.pod_id == pod))) ∧
    ((process_match_core rh m).2.filter (fun e => !(e.pod_id == pod)) =
      rh.2.filter (fun e => !(e.pod_id == pod))) := by
  unfold process_match_core
  rw [hm]
  by_cases he : pod = ""
  · simp [he]
  · simp only [if_neg he]
    constructor
    · exact ((foldl_apply_filter_nonpod pod m.id
          (calculate_multiplayer_elo_changes (collect_player_elos m.players pod rh.1).1
            m.winner_player_id)
          ((collect_player_elos m.players pod rh.1).2, rh.2)).1).trans
        (collect_filter_nonpod pod m.players rh.1)
    · exact (foldl_apply_filter_nonpod pod m.id
          (calculate_multiplayer_elo_changes (collect_player_elos m.players pod rh.1).1
            m.winner_player_id)
          ((collect_player_elos m.players pod rh.1).2, rh.2)).2

theorem process_match_docs (db : EloDB) (m : StoredMatch) :
    (process_match_elo db m).match_docs = db.match_docs := rfl

theorem foldl_process_nonpod (pod : String) :
    ∀ (ms : List StoredMatch) (db : EloDB), (∀ m ∈ ms, m.pod_id = some pod) →
      ((ms.foldl process_match_elo db).ratings.filter (fun r => !(r.pod_id == pod)) =
        db.ratings.filter (fun r => !(r.pod_id == pod))) ∧
      ((ms.foldl process_match_elo db).history.filter (fun e => !(e.pod_id == pod)) =
        db.history.filter (fun e => !(e.pod_id == pod))) ∧
      (ms.foldl process_match_elo db).match_docs = db.match_docs := by
  intro ms
  induction ms with
  | nil => intro db _; exact ⟨rfl, rfl, rfl⟩
  | cons m t ih =>
    intro db hall
    simp only [List.foldl_cons]
    obtain ⟨hr, hh, hd⟩ := ih (process_match_elo db m) (fun x hx => hall x (by simp [hx]))
    obtain ⟨pr, ph⟩ := process_core_filter_nonpod pod (db.ratings, db.history) m
      (hall m (by simp))
    exact ⟨hr.trans pr, hh.trans ph, hd.trans (process_match_docs db m)⟩

theorem all_insertByCreated (P : StoredMatch → Prop) (m : StoredMatch) (hm : P m) :
    ∀ l, (∀ x ∈ l, P x) → ∀ x ∈ insertByCreated m l, P x := by
  intro l
  induction l with
  | nil =>
    intro _ x hx
    simp only [insertByCreated, List.mem_singleton] at hx
    exact hx ▸ hm
  | cons a t ih =>
    intro h x hx
    unfold insertByCreated at hx
    by_cases hc : m.created_at < a.created_at
    · rw [if_pos hc] at hx
      rcases List.mem_cons.mp hx with h1 | h1
      · exact h1 ▸ hm
      · exact h x h1
    · rw [if_neg hc] at hx
      rcases List.mem_cons.mp hx with h1 | h1
      · exact h1 ▸ h a (by simp)
      · exact ih (fun y hy => h y (by simp [hy])) x h1

theorem all_sortByCreated (P : StoredMatch → Prop) :
    ∀ l, (∀ x ∈ l, P x) → ∀ x ∈ sortByCreated l, P x := by
  intro l
  induction l with
  | nil => intro _ x hx; cases hx
  | cons a t ih =>
    intro h
    show ∀ x ∈ insertByCreated a (sortByCreated t), P x
    exact all_insertByCreated P a (h a (by simp)) (sortByCreated t)
      (ih (fun y hy => h y (by simp [hy])))

/-- C3: full recalculation is idempotent — running `recalculate_pod_elo`
twice in a row on the same stored matches yields the identical database state
(in particular identical `PlayerEloRating` and `EloHistoryEntry` contents). -/
theorem recalculate_pod_elo_idempotent (db : EloDB) (pod : String) :
    recalculate_pod_elo (recalculate_pod_elo db pod) pod = recalculate_pod_elo db pod := by
  have hmem : ∀ m ∈ sortByCreated (db.match_docs.filter (fun m => m.pod_id == some pod)),
      m.pod_id = some pod := by
    apply all_sortByCreated
    intro x hx
    have h2 := (List.mem_filter.mp hx).2
    exact eq_of_beq h2
  have hfold := foldl_process_nonpod pod
    (sortByCreated (db.match_docs.filter (fun m => m.pod_id == some pod)))
    (EloDB.mk (db.ratings.filter (fun r => !(r.pod_id == pod)))
      (db.history.filter (fun h => !(h.pod_id == pod))) db.match_docs) hmem
  obtain ⟨hr, hh, hd⟩ := hfold
  have hdb1 : recalculate_pod_elo db pod =
      (sortByCreated (db.match_docs.filter (fun m => m.pod_id == some pod))).foldl
        process_match_elo
        (EloDB.mk (db.ratings.filter (fun r => !(r.pod_id == pod)))
          (db.history.filter (fun h => !(h.pod_id == pod))) db.match_docs) := rfl
  have hmatch : (recalculate_pod_elo db pod).match_docs = db.match_docs := by
    rw [hdb1]; exact hd
  have hratings : (recalculate_pod_elo db pod).ratings.filter (fun r => !(r.pod_id == pod)) =
      db.ratings.filter (fun r => !(r.pod_id == pod)) := by
    rw [hdb1]
    exact hr.trans (filter_self_idem _ _)
  have hhist : (recalculate_pod_elo db pod).history.filter (fun h => !(h.pod_id == pod)) =
      db.history.filter (fun h => !(h.pod_id == pod)) := by
    rw [hdb1]
    exact hh.trans (filter_self_idem _ _)
  calc recalculate_pod_elo (recalculate_pod_elo db pod) pod
      = (sortByCreated ((recalculate_pod_elo db pod).match_docs.filter
            (fun m => m.pod_id == some pod))).foldl
          process_match_elo
          (EloDB.mk
            ((recalculate_pod_elo db pod).ratings.filter (fun r => !(r.pod_id == pod)))
            ((recalculate_pod_elo db pod).history.filter (fun h => !(h.pod_id == pod)))
            (recalculate_pod_elo db pod).match_docs) := rfl
    _ = recalculate_pod_elo db pod := by
        rw [hmatch, hratings, hhist]
        exact hdb1.symm

/-! ### Date-independence of replay (C9) -/

/-- Erase the user-editable `match_date`, keeping every field the replay
reads (`id`, `players`, `winner_player_id`, `pod_id`, `created_at`). -/
def stripDate (m : StoredMatch) : StoredMatch :=
  { m with match_date := 0 }

theorem stripDate_inj_fields {m1 m2 : StoredMatch} (h : stripDate m1 = stripDate m2) :
    m1.id = m2.id ∧ m1.players = m2.players ∧ m1.winner_player_id = m2.winner_player_id ∧
      m1.pod_id = m2.pod_id ∧ m1.created_at = m2.created_at := by
  cases m1
  cases m2
  simp only [stripDate, StoredMatch.mk.injEq] at h
  exact ⟨h.1, h.2.1, h.2.2.1, h.2.2.2.1, h.2.2.2.2.2⟩

theorem process_core_strip (rh : List PlayerEloRating × List EloHistoryEntry)
    (m : StoredMatch) :
    process_match_core rh (stripDate m) = process_match_core rh m := by
  cases m
  rfl

theorem process_match_elo_strip_congr (db1 db2 : EloDB) (m1 m2 : StoredMatch)
    (hrr : db1.ratings = db2.ratings) (hhh : db1.history = db2.history)
    (hm : stripDate m1 = stripDate m2) :
    (process_match_elo db1 m1).ratings = (process_match_elo db2 m2).ratings ∧
    (process_match_elo db1 m1).history = (process_match_elo db2 m2).history := by
  have h1 : process_match_core (db1.ratings, db1.history) m1 =
      process_match_core (db2.ratings, db2.history) m2 := by
    rw [hrr, hhh, ← process_core_strip _ m1, hm, process_core_strip]
  exact ⟨congrArg Prod.fst h1, congrArg Prod.snd h1⟩

theorem foldl_process_strip_congr :
    ∀ (ms1 ms2 : List StoredMatch) (db1 db2 : EloDB),
      ms1.map stripDate = ms2.map stripDate →
      db1.ratings = db2.ratings → db1.history = db2.history →
      (ms1.foldl process_match_elo db1).ratings =
        (ms2.foldl process_match_elo db2).ratings ∧
      (ms1.foldl process_match_elo db1).history =
        (ms2.foldl process_match_elo db2).history := by
  intro ms1
  induction ms1 with
  | nil =>
    intro ms2 db1 db2 hm hr hh
    cases ms2 with
    | nil => exact ⟨hr, hh⟩
    | cons _ _ => simp at hm
  | cons m t ih =>
    intro ms2 db1 db2 hm hr hh
    cases ms2 with
    | nil => simp at hm
    | cons m2 t2 =>
      simp only [List.map_cons, List.cons.injEq] at hm
      obtain ⟨h1, h2⟩ := hm
      obtain ⟨pr, ph⟩ := process_match_elo_strip_congr db1 db2 m m2 hr hh h1
      simpa only [List.foldl_cons] using
        ih t2 (process_match_elo db1 m) (process_match_elo db2 m2) h2 pr ph

theorem filter_pod_strip_congr (pod : String) :
    ∀ (l1 l2 : List StoredMatch), l1.map stripDate = l2.map stripDate →
      (l1.filter (fun m => m.pod_id == some pod)).map stripDate =
        (l2.filter (fun m => m.pod_id == some pod)).map stripDate := by
  intro l1
  induction l1 with
  | nil =>
    intro l2 h
    cases l2 with
    | nil => rfl
    | cons _ _ => simp at h
  | cons a t ih =>
    intro l2 h
    cases l2 with
    | nil => simp at h
    | cons b t2 =>
      simp only [List.map_cons, List.cons.injEq] at h
      obtain ⟨h1, h2⟩ := h
      have hpod : a.pod_id = b.pod_id := (stripDate_inj_fields h1).2.2.2.1
      simp only [List.filter_cons]
      by_cases hc : (a.pod_id == some pod) = true
      · rw [if_pos hc, if_pos (by rw [← hpod]; exact hc)]
        simp only [List.map_cons, List.cons.injEq]
        exact ⟨h1, ih t2 h2⟩
      · rw [if_neg hc, if_neg (by rw [← hpod]; exact hc)]
        exact ih t2 h2

theorem insertByCreated_strip (m : StoredMatch) :
    ∀ l, (insertByCreated m l).map stripDate =
      insertByCreated (stripDate m) (l.map stripDate) := by
  intro l
  induction l with
  | nil => rfl
  | cons a t ih =>
    show (if m.created_at < a.created_at then _ else _ : List StoredMatch).map stripDate = _
    by_cases hc : m.created_at < a.created_at
    · rw [if_pos hc]
      show _ = (if (stripDate m).created_at < (stripDate a).created_at then _ else _)
      rw [if_pos (show (stripDate m).created_at < (stripDate a).created_at from hc)]
      rfl
    · rw [if_neg hc]
      show _ = (if (stripDate m).created_at < (stripDate a).created_at then _ else _)
      rw [if_neg (show ¬ (stripDate m).created_at < (stripDate a).created_at from hc)]
      simp only [List.map_cons]
      rw [ih]

theorem sortByCreated_strip :
    ∀ l, (sortByCreated l).map stripDate = sortByCreated (l.map stripDate) := by
  intro l
  induction l with
  | nil => rfl
  | cons a t ih =>
    show (insertByCreated a (sortByCreated t)).map stripDate = _
    rw [insertByCreated_strip, ih]
    rfl

/-- C9: full recalculation depends only on creation sequence, never on the
user-editable `match_date`: two stores identical except for match dates
produce identical ratings and identical history. -/
theorem recalculate_ignores_match_date (db1 db2 : EloDB) (pod : String)
    (hr : db1.ratings = db2.ratings) (hh : db1.history = db2.history)
    (hm : db1.match_docs.map stripDate = db2.match_docs.map stripDate) :
    (recalculate_pod_elo db1 pod).ratings = (recalculate_pod_elo db2 pod).ratings ∧
    (recalculate_pod_elo db1 pod).history = (recalculate_pod_elo db2 pod).history := by
  have hsorted :
      (sortByCreated (db1.match_docs.filter (fun m => m.pod_id == some pod))).map stripDate =
      (sortByCreated (db2.match_docs.filter (fun m => m.pod_id == some pod))).map stripDate := by
    rw [sortByCreated_strip, sortByCreated_strip, filter_pod_strip_congr pod _ _ hm]
  exact foldl_process_strip_congr _ _
    (EloDB.mk (db1.ratings.filter (fun r => !(r.pod_id == pod)))
      (db1.history.filter (fun h => !(h.pod_id == pod))) db1.match_docs)
    (EloDB.mk (db2.ratings.filter (fun r => !(r.pod_id == pod)))
      (db2.history.filter (fun h => !(h.pod_id == pod))) db2.match_docs)
    hsorted
    (by show db1.ratings.filter (fun r => !(r.pod_id == pod)) =
          db2.ratings.filter (fun r => !(r.pod_id == pod))
        rw [hr])
    (by show db1.history.filter (fun h => !(h.pod_id == pod)) =
          db2.history.filter (fun h => !(h.pod_id == pod))
        rw [hh])

/-- Witness for C9: two one-match stores differing only in the match date. -/
theorem recalculate_ignores_match_date_witness :
    ((EloDB.mk [] [] [StoredMatch.mk "m1" ["a", "b", "c"] "a" (some "pod1") 5 1]).ratings =
      (EloDB.mk [] [] [StoredMatch.mk "m1" ["a", "b", "c"] "a" (some "pod1") 99 1]).ratings) ∧
    ((EloDB.mk [] [] [StoredMatch.mk "m1" ["a", "b", "c"] "a" (some "pod1") 5 1]).history =
      (EloDB.mk [] [] [StoredMatch.mk "m1" ["a", "b", "c"] "a" (some "pod1") 99 1]).history) ∧
    ((EloDB.mk [] [] [StoredMatch.mk "m1" ["a", "b", "c"] "a" (some "pod1") 5 1]).match_docs.map
        stripDate =
      (EloDB.mk [] [] [StoredMatch.mk "m1" ["a", "b", "c"] "a" (some "pod1") 99 1]).match_docs.map
        stripDate) ∧
    ((recalculate_pod_elo (EloDB.mk [] [] [StoredMatch.mk "m1" ["a", "b", "c"] "a" (some "pod1") 5 1]) "pod1").ratings =
      (recalculate_pod_elo (EloDB.mk [] [] [StoredMatch.mk "m1" ["a", "b", "c"] "a" (some "pod1") 99 1]) "pod1").ratings ∧
     (recalculate_pod_elo (EloDB.mk [] [] [StoredMatch.mk "m1" ["a", "b", "c"] "a" (some "pod1") 5 1]) "pod1").history =
      (recalculate_pod_elo (EloDB.mk [] [] [StoredMatch.mk "m1" ["a", "b", "c"] "a" (some "pod1") 99 1]) "pod1").history) :=
  ⟨rfl, rfl, rfl,
    recalculate_ignores_match_date _ _ "pod1" rfl rfl rfl⟩

/-! ## Tournament engine: `app/routers/events.py`

The `Event` document and the tournament-flow endpoints.  Randomness
(`random.shuffle`, the `random.random()` sort tie-break) is modelled by
nondeterministic list parameters constrained to be permutations in the step
relation `EvStep`. -/

inductive EventStatus
  | setup
  | active
  | completed
deriving DecidableEq

inductive RoundStatus
  | pending
  | in_progress
  | completed
deriving DecidableEq, Inhabited

inductive PodMatchStatus
  | pending
  | in_progress
  | completed
deriving DecidableEq, Inhabited

structure PlayerDeckInfo where
  deck_name : String := ""
  commander_image_url : String := ""
  colors : List String := []
deriving DecidableEq, Inhabited

structure PodAssignment where
  pod_index : ℕ
  player_ids : List String := []
  match_id : Option String := none
  match_status : PodMatchStatus := .pending
  player_decks : List (String × PlayerDeckInfo) := []
deriving DecidableEq, Inhabited

structure RoundResult where
  player_id : String
  placement_points : ℤ := 0
  kill_points : ℤ := 0
  alt_win_points : ℤ := 0
  scoop_penalty : ℤ := 0
  total : ℤ := 0
deriving DecidableEq, Inhabited

structure Round where
  round_number : ℕ
  pods : List PodAssignment := []
  results : List RoundResult := []
  status : RoundStatus := .pending
deriving DecidableEq, Inhabited

structure StandingsEntry where
  player_id : String
  total_points : ℤ := 0
  wins : ℕ := 0
  kills : ℤ := 0
  round_points : List ℤ := []
deriving DecidableEq

structure Event where
  event_type : String
  creator_id : String
  status : EventStatus
  current_round : ℕ
  round_count : ℕ
  players : List String
  rounds : List Round
  standings : List StandingsEntry
deriving DecidableEq

/-- The fields of a `Match` document read by the tournament engine. -/
structure MatchPlayer where
  player_id : String
  deck_name : String := ""
  elimination_order : Option ℕ := none
  is_winner : Bool := false
  eliminated_by_player_id : Option String := none
  elimination_type : Option String := none
deriving DecidableEq, Inhabited

structure MatchDoc where
  players : List MatchPlayer
  winner_player_id : String
deriving DecidableEq

/-- Dict `.get(k, d)` on an association list. -/
def lookupD {β : Type} (l : List (String × β)) (k : String) (d : β) : β :=
  match l.lookup k with
  | some v => v
  | none => d

/-- `placement_map = {1: 3, 2: 2, 3: 1, 4: 0}` with `.get(_, 0)`. -/
def placement_map (o : ℕ) : ℤ :=
  if o = 1 then 3 else if o = 2 then 2 else if o = 3 then 1 else 0

/-- One iteration of the kill-count loop of the normal scoring branch:
`if mp.eliminated_by_player_id and mp.elimination_type == "kill"` increments
the killer's count (a falsy — absent or empty — reference fails the
truthiness test). -/
def kill_step (counts : List (String × ℤ)) (mp : MatchPlayer) : List (String × ℤ) :=
  if mp.eliminated_by_player_id ≠ none ∧ mp.eliminated_by_player_id ≠ some "" ∧
      mp.elimination_type = some "kill" then
    dictInsert counts (mp.eliminated_by_player_id.getD "")
      (lookupD counts (mp.eliminated_by_player_id.getD "") 0 + 1)
  else counts

/-- The kill-count dict of the normal scoring branch: for each player, how
many participants they eliminated via `"kill"` (the loop counts every
participant whose truthy `eliminated_by_player_id` matches, the participant
itself included). -/
def kill_counts (players : List MatchPlayer) : List (String × ℤ) :=
  players.foldl kill_step []

/-- The non-winner placement points of the alt-win branch: no elimination
order or order 1 means "still in the game" (2 points), otherwise the normal
placement table. -/
def alt_placement (o : Option ℕ) : ℤ :=
  match o with
  | none => 2
  | some o => if o = 1 then 2 else placement_map o

/-- `_calculate_match_points(match, is_alt_win)`. -/
def calculate_match_points (m : MatchDoc) (is_alt_win : Bool) : List RoundResult :=
  if is_alt_win then
    m.players.map (fun mp =>
      let alt_win_points : ℤ := if mp.is_winner then 4 else 0
      let placement_points : ℤ := if mp.is_winner then 0 else alt_placement mp.elimination_order
      let kill_points : ℤ := 0
      let scoop_penalty : ℤ := if mp.elimination_type = some "scoop" then -1 else 0
      { player_id := mp.player_id,
        placement_points := placement_points,
        kill_points := kill_points,
        alt_win_points := alt_win_points,
        scoop_penalty := scoop_penalty,
        total := placement_points + kill_points + alt_win_points + scoop_penalty })
  else
    let kc := kill_counts m.players
    m.players.map (fun mp =>
      let placement_points : ℤ :=
        match mp.elimination_order with
        | none => 0
        | some o => if o = 0 then 0 else placement_map o
      let kill_points : ℤ := lookupD kc mp.player_id 0
      let scoop_penalty : ℤ := if mp.elimination_type = some "scoop" then -1 else 0
      { player_id := mp.player_id,
        placement_points := placement_points,
        kill_points := kill_points,
        alt_win_points := 0,
        scoop_penalty := scoop_penalty,
        total := placement_points + kill_points + scoop_penalty })

/-- `_create_pods_from_player_list`: positional chunks of 4. -/
def chunk4 (l : List String) : List (List String) :=
  if l = [] then []
  else l.take 4 :: chunk4 (l.drop 4)
termination_by l.length
decreasing_by
  rename_i h
  have : 0 < l.length := List.length_pos.mpr h
  simp only [List.length_drop]
  omega

def create_pods_from_player_list (player_ids : List String) : List PodAssignment :=
  (chunk4 player_ids).enum.map
    (fun ic => { pod_index := ic.1, player_ids := ic.2, match_status := .pending })

/-- `_create_1v1_pairings`: adjacent pairs (odd leftover dropped). -/
def pairs2 : List String → List (String × String)
  | a :: b :: t => (a, b) :: pairs2 t
  | _ => []

def create_1v1_pairings (player_ids : List String) : List PodAssignment :=
  (pairs2 player_ids).enum.map
    (fun ip => { pod_index := ip.1, player_ids := [ip.2.1, ip.2.2], match_status := .pending })

/-- The previously-paired unordered id sets of `_swiss_pair`, from 2-player
pods of the given rounds. -/
def previous_pairings (rounds : List Round) : List (Finset String) :=
  (rounds.map (fun r =>
    (r.pods.filter (fun pod => pod.player_ids.length = 2)).map
      (fun pod => pod.player_ids.toFinset))).flatten

/-- The partner search of `_swiss_pair`: first opponent not already paired
with `p1`, otherwise the head of the remaining list (forced rematch). -/
def popPartner (prev : List (Finset String)) (p1 : String) (rest : List String) :
    String × List String :=
  let i := rest.findIdx (fun p2 => !(prev.contains ({p1, p2} : Finset String)))
  let j := if i < rest.length then i else 0
  (rest.getD j "", rest.eraseIdx j)

theorem popPartner_length (prev : List (Finset String)) (p1 : String)
    (rest : List String) (h : rest ≠ []) :
    (popPartner prev p1 rest).2.length = rest.length - 1 := by
  unfold popPartner
  have hj : (if rest.findIdx (fun p2 => !(prev.contains ({p1, p2} : Finset String))) <
        rest.length
      then rest.findIdx (fun p2 => !(prev.contains ({p1, p2} : Finset String)))
      else 0) < rest.length := by
    split_ifs with hi
    · exact hi
    · exact List.length_pos.mpr h
  simp only [List.length_eraseIdx, if_pos hj]

/-- The pairing loop of `_swiss_pair`: pop the top player, pop the first
compatible (or forced) partner, recurse; a lone leftover is dropped. -/
def swissPairLoop (prev : List (Finset String)) : List String → List (String × String)
  | [] => []
  | [_] => []
  | p1 :: p2 :: rest =>
      let pr := popPartner prev p1 (p2 :: rest)
      (p1, pr.1) :: swissPairLoop prev pr.2
termination_by l => l.length
decreasing_by
  rw [popPartner_length prev p1 (p2 :: rest) (by simp)]
  simp only [List.length_cons]
  omega

/-- `_swiss_pair(standings, previous_rounds)` with the
`(total_points desc, random tie-break)` sort modelled by the caller-supplied
`order` of player ids. -/
def swiss_pair (order : List String) (previous_rounds : List Round) : List PodAssignment :=
  ((swissPairLoop (previous_pairings previous_rounds) order).enum).map
    (fun ip => { pod_index := ip.1, player_ids := [ip.2.1, ip.2.2], match_status := .pending })

/-! ### Tournament flow endpoints

Each endpoint is a function from the fetched `Event` document (`none` models
`Event.get` returning nothing) to `Except ApiError Event`.  The caller is the
authenticated player id plus their superuser flag; endpoints that never read
the caller take it as an unused `_caller` argument, mirroring a handler whose
`current_player` dependency is used for authentication only. -/

inductive ApiError
  | notFound (detail : String)
  | badRequest (detail : String)
  | forbidden (detail : String)
deriving DecidableEq

def findRound (rounds : List Round) (rn : ℕ) : Option Round :=
  rounds.find? (fun r => r.round_number == rn)

def findPod (pods : List PodAssignment) (idx : ℕ) : Option PodAssignment :=
  pods.find? (fun p => p.pod_index == idx)

/-- The round-1 pod construction of `start_tournament`: 1v1 pairings for
draft events, chunks of 4 otherwise. -/
def round1_pods_for (event_type : String) (shuffled : List String) : List PodAssignment :=
  if event_type = "draft" then create_1v1_pairings shuffled
  else create_pods_from_player_list shuffled

/-- `POST /{event_id}/start` (`start_tournament`): creator only, from
`setup`; chunks the shuffled player list into round-1 pods.  The Python
`event.rounds[0]` indexing on an empty round list (an `IndexError`, ruled out
by the model validator `round_count >= 1`) is modelled as an error. -/
def start_tournament (caller : String) (is_superuser : Bool) (ev? : Option Event)
    (shuffled : List String) : Except ApiError Event :=
  match ev? with
  | none => .error (.notFound "Event not found")
  | some event =>
    if event.creator_id ≠ caller ∧ ¬ is_superuser then
      .error (.forbidden "Only the event creator can start the tournament")
    else if event.status ≠ .setup then
      .error (.badRequest "Event must be in setup status to start")
    else
      match event.rounds with
      | [] => .error (.badRequest "IndexError: no rounds")
      | r0 :: rest =>
          .ok { event with
            status := .active,
            current_round := 1,
            rounds := { r0 with
              pods := (round1_pods_for event.event_type shuffled),
              status := .in_progress } :: rest }

/-- The rounds-list mutation performed by a successful `start_pod_match`:
the first round with the given number gets status `in_progress` and its
first pod with the given index goes `pending → in_progress`. -/
def start_pod_rounds_update (round_num pod_index : ℕ) (rounds : List Round) : List Round :=
  updateFirstBy (fun r => r.round_number == round_num)
    (fun r =>
      { r with
        status := .in_progress,
        pods := updateFirstBy (fun p => p.pod_index == pod_index)
          (fun p => { p with match_status := .in_progress }) r.pods })
    rounds

/-- `POST .../start-match` (`start_pod_match`): any player in that pod (or a
superuser), only on the current round, only while the pod is `pending`. -/
def start_pod_match (caller : String) (is_superuser : Bool) (ev? : Option Event)
    (round_num pod_index : ℕ) : Except ApiError Event :=
  match ev? with
  | none => .error (.notFound "Event not found")
  | some event =>
    if event.status ≠ .active then .error (.badRequest "Event is not active")
    else if round_num ≠ event.current_round then
      .error (.badRequest "Round is not the current round")
    else
      match findRound event.rounds round_num with
      | none => .error (.notFound "Round not found")
      | some r =>
        match findPod r.pods pod_index with
        | none => .error (.notFound "Pod not found in this round")
        | some p =>
          if caller ∉ p.player_ids ∧ ¬ is_superuser then
            .error (.forbidden "You must be in this pod to start the match")
          else if p.match_status ≠ .pending then
            .error (.badRequest "Pod match is already started")
          else
            .ok { event with
              rounds := start_pod_rounds_update round_num pod_index event.rounds }

/-- The rounds-list mutation performed by a successful `cancel_pod_match`:
the first pod with the given index in the first round with the given number
goes back to `pending` with its match id cleared. -/
def cancel_rounds_update (round_num pod_index : ℕ) (rounds : List Round) : List Round :=
  updateFirstBy (fun r => r.round_number == round_num)
    (fun r =>
      { r with
        pods := updateFirstBy (fun p => p.pod_index == pod_index)
          (fun p => { p with match_status := .pending, match_id := none }) r.pods })
    rounds

/-- `POST .../cancel-match` (`cancel_pod_match`): only requires the event to
be active, the round and pod to exist and the pod to be `in_progress`; the
caller is never inspected.  Resets the pod to `pending` and clears its
match id. -/
def cancel_pod_match (_caller : String) (ev? : Option Event)
    (round_num pod_index : ℕ) : Except ApiError Event :=
  match ev? with
  | none => .error (.notFound "Event not found")
  | some event =>
    if event.status ≠ .active then .error (.badRequest "Event is not active")
    else
      match findRound event.rounds round_num with
      | none => .error (.notFound "Round not found")
      | some r =>
        match findPod r.pods pod_index with
        | none => .error (.notFound "Pod not found in this round")
        | some p =>
          if p.match_status ≠ .in_progress then
            .error (.badRequest "Pod match is not in progress")
          else
            .ok { event with
              rounds := cancel_rounds_update round_num pod_index event.rounds }

/-- The per-round effect of the array-filtered `$set` of `set_pod_deck`:
every matching round has every matching pod's deck map upserted. -/
def set_deck_round_update (round_num pod_index : ℕ) (player_id : String)
    (info : PlayerDeckInfo) (r : Round) : Round :=
  if r.round_number = round_num then
    { r with pods := r.pods.map (fun p =>
        if p.pod_index = pod_index then
          { p with player_decks := dictInsert p.player_decks player_id info }
        else p) }
  else r

/-- `POST .../set-deck` (`set_pod_deck`): atomic `$set` with array filters —
succeeds whenever the event exists and is active (`matched_count` counts the
event only), writing the deck info into every round/pod matching the array
filters. -/
def set_pod_deck (ev? : Option Event) (round_num pod_index : ℕ)
    (player_id : String) (info : PlayerDeckInfo) : Except ApiError Event :=
  match ev? with
  | none => .error (.notFound "Event, round, or pod not found")
  | some event =>
    if event.status ≠ .active then .error (.notFound "Event, round, or pod not found")
    else
      .ok { event with
        rounds := event.rounds.map (set_deck_round_update round_num pod_index player_id info) }

/-- Head-to-head (draft) scoring: winner 1 point, everyone else 0. -/
def draft_results (m : MatchDoc) : List RoundResult :=
  m.players.map (fun mp =>
    let total : ℤ := if mp.player_id = m.winner_player_id then 1 else 0
    { player_id := mp.player_id, placement_points := total, total := total })

/-- The deck-enrichment loop of `complete_pod_match`: only fill slots not
already populated by `set-deck`. -/
def fill_decks (players : List MatchPlayer) (decks : List (String × PlayerDeckInfo)) :
    List (String × PlayerDeckInfo) :=
  players.foldl
    (fun d mp =>
      if (d.lookup mp.player_id).isSome then d
      else dictInsert d mp.player_id { deck_name := mp.deck_name })
    decks

/-- The standings merge of `complete_pod_match` for one `RoundResult`:
`total_points += total`, `kills += kill_points`, `wins += 1` when this player
is the match winner, and `round_points[round_num-1] += total` after padding
with zeros. -/
def applyResultToStanding (winner_id : String) (round_num : ℕ) (rr : RoundResult)
    (s : StandingsEntry) : StandingsEntry :=
  let rp := s.round_points ++ List.replicate (round_num - s.round_points.length) 0
  { s with
    total_points := s.total_points + rr.total,
    kills := s.kills + rr.kill_points,
    wins := s.wins + (if winner_id = rr.player_id then 1 else 0),
    round_points := rp.set (round_num - 1) (rp.getD (round_num - 1) 0 + rr.total) }

def merge_results (winner_id : String) (round_num : ℕ)
    (standings : List StandingsEntry) (rrs : List RoundResult) : List StandingsEntry :=
  rrs.foldl
    (fun st rr =>
      updateFirstBy (fun s => s.player_id == rr.player_id)
        (applyResultToStanding winner_id round_num rr) st)
    standings

/-- The per-pod scoring dispatch of `complete_pod_match`: binary draft
scoring or `_calculate_match_points`. -/
def pod_round_results (event_type : String) (m : MatchDoc) (is_alt_win : Bool) :
    List RoundResult :=
  if event_type = "draft" then draft_results m
  else calculate_match_points m is_alt_win

/-- The pod mutation of `complete_pod_match`: link the match, mark the pod
completed, and enrich the deck map from the match snapshot. -/
def complete_pod_update (match_id : String) (m : MatchDoc) (p : PodAssignment) :
    PodAssignment :=
  { p with
    match_id := some match_id,
    match_status := .completed,
    player_decks := fill_decks m.players p.player_decks }

/-- The rounds-list mutation performed by a successful `complete_pod_match`:
mark the pod completed (linking the match and enriching decks), extend the
round's results, and complete the round when every pod is now completed. -/
def complete_pod_rounds_update (round_num pod_index : ℕ) (match_id : String)
    (m : MatchDoc) (round_results : List RoundResult) (rounds : List Round) : List Round :=
  updateFirstBy (fun r => r.round_number == round_num)
    (fun r =>
      let pods' := updateFirstBy (fun p => p.pod_index == pod_index)
        (complete_pod_update match_id m) r.pods
      { r with
        pods := pods',
        results := r.results ++ round_results,
        status :=
          if pods'.all (fun pa => pa.match_status = PodMatchStatus.completed)
          then .completed else r.status })
    rounds

/-- `POST .../complete-match` (`complete_pod_match`): current round only,
re-completion rejected; links the match, fills decks, computes round points
(draft binary or `_calculate_match_points`), extends the round's results,
merges standings, and marks the round completed exactly when every pod of
the round is now completed. -/
def complete_pod_match (ev? : Option Event) (round_num pod_index : ℕ)
    (match_id : String) (m? : Option MatchDoc) (is_alt_win : Bool) :
    Except ApiError Event :=
  match ev? with
  | none => .error (.notFound "Event not found")
  | some event =>
    if event.status ≠ .active then .error (.badRequest "Event is not active")
    else if round_num ≠ event.current_round then
      .error (.badRequest "Round is not the current round")
    else
      match findRound event.rounds round_num with
      | none => .error (.notFound "Round not found")
      | some r =>
        match findPod r.pods pod_index with
        | none => .error (.notFound "Pod not found in this round")
        | some p =>
          if p.match_status = .completed then
            .error (.badRequest "This pod match is already completed")
          else
            match m? with
            | none => .error (.notFound "Match not found")
            | some m =>
              .ok { event with
                rounds := complete_pod_rounds_update round_num pod_index match_id m
                  (pod_round_results event.event_type m is_alt_win) event.rounds,
                standings := merge_results m.winner_player_id round_num
                  event.standings (pod_round_results event.event_type m is_alt_win) }

/-- The next-round pod construction of `advance_round`: Swiss pairing over
the completed rounds for draft events, strength-grouped chunks of 4
otherwise. -/
def next_round_pods_for (event_type : String) (sorted_standings : List StandingsEntry)
    (rounds : List Round) : List PodAssignment :=
  if event_type = "draft" then
    swiss_pair (sorted_standings.map (fun s => s.player_id))
      (rounds.filter (fun r => r.status = RoundStatus.completed))
  else
    create_pods_from_player_list (sorted_standings.map (fun s => s.player_id))

/-- The rounds-list mutation performed by a successful `advance_round`: the
first round with the next round number receives the freshly seeded pods and
becomes `in_progress`. -/
def advance_rounds_update (next_round_num : ℕ) (pods : List PodAssignment)
    (rounds : List Round) : List Round :=
  updateFirstBy (fun r => r.round_number == next_round_num)
    (fun r => { r with pods := pods, status := .in_progress })
    rounds

/-- `POST /{event_id}/advance-round` (`advance_round`): creator only, event
active, current round completed, a next round configured; seeds the next
round's pods from the sorted standings (`sorted_standings` models the
`(total_points desc, random tie-break)` order) and increments
`current_round`. -/
def advance_round (caller : String) (is_superuser : Bool) (ev? : Option Event)
    (sorted_standings : List StandingsEntry) : Except ApiError Event :=
  match ev? with
  | none => .error (.notFound "Event not found")
  | some event =>
    if event.creator_id ≠ caller ∧ ¬ is_superuser then
      .error (.forbidden "Only the event creator can advance the round")
    else if event.status ≠ .active then .error (.badRequest "Event is not active")
    else
      match findRound event.rounds event.current_round with
      | none => .error (.notFound "Current round not found")
      | some r =>
        if r.status ≠ .completed then
          .error (.badRequest "Current round is not completed yet")
        else if event.round_count < event.current_round + 1 then
          .error (.badRequest "No more rounds to advance to")
        else
          .ok { event with
            current_round := event.current_round + 1,
            rounds := advance_rounds_update (event.current_round + 1)
              (next_round_pods_for event.event_type sorted_standings event.rounds)
              event.rounds }

/-- `POST /{event_id}/complete` (`complete_tournament`): creator only, event
active, the round numbered `round_count` completed. -/
def complete_tournament (caller : String) (is_superuser : Bool) (ev? : Option Event) :
    Except ApiError Event :=
  match ev? with
  | none => .error (.notFound "Event not found")
  | some event =>
    if event.creator_id ≠ caller ∧ ¬ is_superuser then
      .error (.forbidden "Only the event creator can complete the tournament")
    else if event.status ≠ .active then .error (.badRequest "Event is not active")
    else
      match findRound event.rounds event.round_count with
      | none => .error (.notFound "Last round not found")
      | some r =>
        if r.status ≠ .completed then
          .error (.badRequest "Last round is not completed yet")
        else
          .ok { event with status := .completed }

/-- The state of a freshly created event (`create_event`): status `setup`,
`current_round = 0`, `round_count` empty pending rounds, zeroed standings. -/
def initial_event (event_type creator_id : String) (players : List String)
    (round_count : ℕ) : Event :=
  { event_type := event_type, creator_id := creator_id, status := .setup,
    current_round := 0, round_count := round_count, players := players,
    rounds := (List.range round_count).map (fun i =>
      { round_number := i + 1, pods := [], results := [], status := .pending }),
    standings := players.map (fun pid => { player_id := pid }) }

/-- One tournament transition: an endpoint invocation that succeeded.
Shuffle/sort randomness appears as permutation-constrained parameters. -/
inductive EvStep : Event → Event → Prop
  | start (caller : String) (su : Bool) (shuffled : List String) (e e' : Event)
      (hperm : shuffled.Perm e.players)
      (h : start_tournament caller su (some e) shuffled = .ok e') : EvStep e e'
  | startPod (caller : String) (su : Bool) (rn idx : ℕ) (e e' : Event)
      (h : start_pod_match caller su (some e) rn idx = .ok e') : EvStep e e'
  | cancelPod (caller : String) (rn idx : ℕ) (e e' : Event)
      (h : cancel_pod_match caller (some e) rn idx = .ok e') : EvStep e e'
  | setDeck (rn idx : ℕ) (pid : String) (info : PlayerDeckInfo) (e e' : Event)
      (h : set_pod_deck (some e) rn idx pid info = .ok e') : EvStep e e'
  | completePod (rn idx : ℕ) (mid : String) (m : MatchDoc) (alt : Bool) (e e' : Event)
      (h : complete_pod_match (some e) rn idx mid (some m) alt = .ok e') : EvStep e e'
  | advance (caller : String) (su : Bool) (ord : List StandingsEntry) (e e' : Event)
      (hperm : ord.Perm e.standings)
      (h : advance_round caller su (some e) ord = .ok e') : EvStep e e'
  | completeT (caller : String) (su : Bool) (e e' : Event)
      (h : complete_tournament caller su (some e) = .ok e') : EvStep e e'

/-- Tournament states reachable from event creation. -/
inductive EvReachable : Event → Prop
  | init (event_type creator_id : String) (players : List String) (round_count : ℕ) :
      EvReachable (initial_event event_type creator_id players round_count)
  | step {e e' : Event} : EvReachable e → EvStep e e' → EvReachable e'

/-! ### `updateFirstBy` structure lemmas -/

theorem length_updateFirstBy {α : Type} (q : α → Bool) (f : α → α) :
    ∀ l : List α, (updateFirstBy q f l).length = l.length := by
  intro l
  induction l with
  | nil => rfl
  | cons a t ih => by_cases h : q a = true <;> simp [updateFirstBy, h, ih]

theorem mem_updateFirstBy_cases {α : Type} (q : α → Bool) (f : α → α) :
    ∀ (l : List α) (x : α), x ∈ updateFirstBy q f l →
      x ∈ l ∨ ∃ a, l.find? q = some a ∧ x = f a := by
  intro l
  induction l with
  | nil => intro x hx; cases hx
  | cons b t ih =>
    intro x hx
    by_cases hb : q b = true
    · rw [show updateFirstBy q f (b :: t) = f b :: t from by simp [updateFirstBy, hb]] at hx
      rcases List.mem_cons.mp hx with h | h
      · right
        exact ⟨b, List.find?_cons_of_pos t hb, h⟩
      · left
        exact List.mem_cons_of_mem _ h
    · rw [show updateFirstBy q f (b :: t) = b :: updateFirstBy q f t from by
          simp [updateFirstBy, hb]] at hx
      rcases List.mem_cons.mp hx with h | h
      · left; simp [h]
      · rcases ih x h with h1 | ⟨a, ha, hxa⟩
        · left; simp [h1]
        · right
          refine ⟨a, ?_, hxa⟩
          rw [List.find?_cons_of_neg t hb]
          exact ha

theorem updated_mem_updateFirstBy {α : Type} (q : α → Bool) (f : α → α) :
    ∀ (l : List α) (a : α), l.find? q = some a → f a ∈ updateFirstBy q f l := by
  intro l
  induction l with
  | nil => intro a ha; cases ha
  | cons b t ih =>
    intro a ha
    by_cases hb : q b = true
    · rw [List.find?_cons_of_pos t hb] at ha
      obtain rfl : b = a := by injection ha
      rw [show updateFirstBy q f (b :: t) = f b :: t from by simp [updateFirstBy, hb]]
      simp
    · rw [List.find?_cons_of_neg t hb] at ha
      rw [show updateFirstBy q f (b :: t) = b :: updateFirstBy q f t from by
        simp [updateFirstBy, hb]]
      exact List.mem_cons_of_mem _ (ih a ha)

/-! ### Constructed pods are pending -/

theorem create_pods_status (pids : List String) :
    ∀ pa ∈ create_pods_from_player_list pids, pa.match_status = .pending := by
  intro pa hpa
  rcases List.mem_map.mp hpa with ⟨ic, _, rfl⟩
  rfl

theorem create_1v1_status (pids : List String) :
    ∀ pa ∈ create_1v1_pairings pids, pa.match_status = .pending := by
  intro pa hpa
  rcases List.mem_map.mp hpa with ⟨ip, _, rfl⟩
  rfl

theorem swiss_pair_status (order : List String) (prevs : List Round) :
    ∀ pa ∈ swiss_pair order prevs, pa.match_status = .pending := by
  intro pa hpa
  rcases List.mem_map.mp hpa with ⟨ip, _, rfl⟩
  rfl

/-! ### Success characterizations of the endpoints -/

theorem cancel_ok_inv {caller : String} {e e' : Event} {rn idx : ℕ}
    (h : cancel_pod_match caller (some e) rn idx = .ok e') :
    e.status = .active ∧
    ∃ r, findRound e.rounds rn = some r ∧
      ∃ p, findPod r.pods idx = some p ∧ p.match_status = .in_progress ∧
        e' = { e with rounds := cancel_rounds_update rn idx e.rounds } := by
  unfold cancel_pod_match at h
  split at h
  next => exact absurd h (by simp)
  next ev hev =>
    obtain rfl : ev = e := by injection hev with hh; exact hh.symm
    split at h
    next hactive => exact absurd h (by simp)
    next hactive =>
      split at h
      next heq => exact absurd h (by simp)
      next r heq =>
        split at h
        next heqp => exact absurd h (by simp)
        next p heqp =>
          split at h
          next hst => exact absurd h (by simp)
          next hst =>
            simp only [Except.ok.injEq] at h
            exact ⟨by simpa using hactive, r, heq, p, heqp, by simpa using hst, h.symm⟩

theorem start_tournament_ok_inv {caller : String} {su : Bool} {e e' : Event}
    {shuffled : List String}
    (h : start_tournament caller su (some e) shuffled = .ok e') :
    e.status = .setup ∧
    ∃ r0 rest, e.rounds = r0 :: rest ∧
      e' = { e with
        status := .active,
        current_round := 1,
        rounds := { r0 with
          pods := (round1_pods_for e.event_type shuffled),
          status := .in_progress } :: rest } := by
  unfold start_tournament at h
  split at h
  next => exact absurd h (by simp)
  next ev hev =>
    obtain rfl : ev = e := by injection hev with hh; exact hh.symm
    split at h
    next hcr => exact absurd h (by simp)
    next hcr =>
      split at h
      next hs => exact absurd h (by simp)
      next hs =>
        split at h
        next heq => exact absurd h (by simp)
        next r0 rest heq =>
          simp only [Except.ok.injEq] at h
          exact ⟨by simpa using hs, r0, rest, heq, h.symm⟩

theorem start_pod_ok_inv {caller : String} {su : Bool} {e e' : Event} {rn idx : ℕ}
    (h : start_pod_match caller su (some e) rn idx = .ok e') :
    e.status = .active ∧ rn = e.current_round ∧
    ∃ r, findRound e.rounds rn = some r ∧
      ∃ p, findPod r.pods idx = some p ∧ (caller ∈ p.player_ids ∨ su = true) ∧
        p.match_status = .pending ∧
        e' = { e with rounds := start_pod_rounds_update rn idx e.rounds } := by
  unfold start_pod_match at h
  split at h
  next => exact absurd h (by simp)
  next ev hev =>
    obtain rfl : ev = e := by injection hev with hh; exact hh.symm
    split at h
    next hactive => exact absurd h (by simp)
    next hactive =>
      split at h
      next hrn => exact absurd h (by simp)
      next hrn =>
        split at h
        next heq => exact absurd h (by simp)
        next r heq =>
          split at h
          next heqp => exact absurd h (by simp)
          next p heqp =>
            split at h
            next hmem => exact absurd h (by simp)
            next hmem =>
              split at h
              next hst => exact absurd h (by simp)
              next hst =>
                simp only [Except.ok.injEq] at h
                refine ⟨by simpa using hactive, by simpa using hrn, r, heq, p, heqp, ?_,
                  by simpa using hst, h.symm⟩
                rcases not_and_or.mp hmem with h1 | h1
                · exact Or.inl (not_not.mp h1)
                · exact Or.inr (by simpa using h1)

theorem set_deck_ok_inv {e e' : Event} {rn idx : ℕ} {pid : String}
    {info : PlayerDeckInfo}
    (h : set_pod_deck (some e) rn idx pid info = .ok e') :
    e.status = .active ∧
    e' = { e with rounds := e.rounds.map (set_deck_round_update rn idx pid info) } := by
  unfold set_pod_deck at h
  split at h
  next => exact absurd h (by simp)
  next ev hev =>
    obtain rfl : ev = e := by injection hev with hh; exact hh.symm
    split at h
    next hactive => exact absurd h (by simp)
    next hactive =>
      simp only [Except.ok.injEq] at h
      exact ⟨by simpa using hactive, h.symm⟩

theorem complete_pod_ok_inv {e e' : Event} {rn idx : ℕ} {mid : String}
    {m : MatchDoc} {alt : Bool}
    (h : complete_pod_match (some e) rn idx mid (some m) alt = .ok e') :
    e.status = .active ∧ rn = e.current_round ∧
    ∃ r, findRound e.rounds rn = some r ∧
      ∃ p, findPod r.pods idx = some p ∧ p.match_status ≠ .completed ∧
        e' = { e with
          rounds := complete_pod_rounds_update rn idx mid m
            (pod_round_results e.event_type m alt) e.rounds,
          standings := merge_results m.winner_player_id rn e.standings
            (pod_round_results e.event_type m alt) } := by
  unfold complete_pod_match at h
  split at h
  next => exact absurd h (by simp)
  next ev hev =>
    obtain rfl : ev = e := by injection hev with hh; exact hh.symm
    split at h
    next hactive => exact absurd h (by simp)
    next hactive =>
      split at h
      next hrn => exact absurd h (by simp)
      next hrn =>
        split at h
        next heq => exact absurd h (by simp)
        next r heq =>
          split at h
          next heqp => exact absurd h (by simp)
          next p heqp =>
            split at h
            next hst => exact absurd h (by simp)
            next hst =>
              split at h
              next => exact absurd h (by simp)
              next m2 hm2 =>
                obtain rfl : m2 = m := by injection hm2 with hh; exact hh.symm
                simp only [Except.ok.injEq] at h
                exact ⟨by simpa using hactive, by simpa using hrn, r, heq, p, heqp,
                  hst, h.symm⟩

theorem advance_ok_inv {caller : String} {su : Bool} {e e' : Event}
    {ord : List StandingsEntry}
    (h : advance_round caller su (some e) ord = .ok e') :
    e.status = .active ∧
    ∃ r, findRound e.rounds e.current_round = some r ∧ r.status = .completed ∧
      e.current_round + 1 ≤ e.round_count ∧
      e' = { e with
        current_round := e.current_round + 1,
        rounds := advance_rounds_update (e.current_round + 1)
          (next_round_pods_for e.event_type ord e.rounds) e.rounds } := by
  unfold advance_round at h
  split at h
  next => exact absurd h (by simp)
  next ev hev =>
    obtain rfl : ev = e := by injection hev with hh; exact hh.symm
    split at h
    next hcr => exact absurd h (by simp)
    next hcr =>
      split at h
      next hactive => exact absurd h (by simp)
      next hactive =>
        split at h
        next heq => exact absurd h (by simp)
        next r heq =>
          split at h
          next hst => exact absurd h (by simp)
          next hst =>
            split at h
            next hnext => exact absurd h (by simp)
            next hnext =>
              simp only [Except.ok.injEq] at h
              exact ⟨by simpa using hactive, r, heq, by simpa using hst,
                by omega, h.symm⟩

theorem complete_tournament_ok_inv {caller : String} {su : Bool} {e e' : Event}
    (h : complete_tournament caller su (some e) = .ok e') :
    e.status = .active ∧
    ∃ r, findRound e.rounds e.round_count = some r ∧ r.status = .completed ∧
      e' = { e with status := .completed } := by
  unfold complete_tournament at h
  split at h
  next => exact absurd h (by simp)
  next ev hev =>
    obtain rfl : ev = e := by injection hev with hh; exact hh.symm
    split at h
    next hcr => exact absurd h (by simp)
    next hcr =>
      split at h
      next hactive => exact absurd h (by simp)
      next hactive =>
        split at h
        next heq => exact absurd h (by simp)
        next r heq =>
          split at h
          next hst => exact absurd h (by simp)
          next hst =>
            simp only [Except.ok.injEq] at h
            exact ⟨by simpa using hactive, r, heq, by simpa using hst, h.symm⟩

/-! ### The round-completion invariant (C4) -/

/-- The round-completion closure: a round is `completed` exactly when it has
pods and every pod's match is completed (rounds whose pods have not been
seeded yet are `pending`). -/
def roundIff (r : Round) : Prop :=
  r.status = RoundStatus.completed ↔
    r.pods ≠ [] ∧ ∀ p ∈ r.pods, p.match_status = PodMatchStatus.completed

/-- The tournament-completion closure: a completed event has its last
configured round completed. -/
def completedClosure (e : Event) : Prop :=
  e.status = EventStatus.completed →
    ∃ r ∈ e.rounds, r.round_number = e.round_count ∧ r.status = RoundStatus.completed

def eventInv (e : Event) : Prop :=
  (∀ r ∈ e.rounds, roundIff r) ∧ completedClosure e

theorem closure_round_of_pending (r : Round) (hst : r.status ≠ RoundStatus.completed)
    (hp : ∀ p ∈ r.pods, p.match_status = PodMatchStatus.pending) : roundIff r := by
  constructor
  · intro h
    exact absurd h hst
  · rintro ⟨hne, hall⟩
    obtain ⟨p, hpmem⟩ := List.exists_mem_of_ne_nil _ hne
    have h1 := hall p hpmem
    rw [hp p hpmem] at h1
    cases h1

theorem round1_pods_status (et : String) (sh : List String) :
    ∀ p ∈ round1_pods_for et sh, p.match_status = .pending := by
  unfold round1_pods_for
  split_ifs
  · exact create_1v1_status sh
  · exact create_pods_status sh

theorem next_round_pods_status (et : String) (ord : List StandingsEntry)
    (rounds : List Round) :
    ∀ p ∈ next_round_pods_for et ord rounds, p.match_status = .pending := by
  unfold next_round_pods_for
  split_ifs
  · exact swiss_pair_status _ _
  · exact create_pods_status _

theorem map_preserves_roundIff (g : PodAssignment → PodAssignment)
    (hg : ∀ p, (g p).match_status = p.match_status) (r : Round) (h : roundIff r) :
    roundIff { r with pods := r.pods.map g } := by
  unfold roundIff at *
  show r.status = _ ↔ r.pods.map g ≠ [] ∧ ∀ p ∈ r.pods.map g, _
  constructor
  · intro hc
    obtain ⟨hne, hall⟩ := h.mp hc
    refine ⟨by simpa using hne, ?_⟩
    intro p' hp'
    rcases List.mem_map.mp hp' with ⟨p, hp, rfl⟩
    rw [hg p]
    exact hall p hp
  · rintro ⟨hne, hall⟩
    refine h.mpr ⟨by simpa using hne, ?_⟩
    intro p hp
    have := hall (g p) (List.mem_map_of_mem g hp)
    rwa [hg p] at this

theorem roundIff_set_deck (rn idx : ℕ) (pid : String) (info : PlayerDeckInfo)
    (r : Round) (h : roundIff r) : roundIff (set_deck_round_update rn idx pid info r) := by
  unfold set_deck_round_update
  by_cases hr : r.round_number = rn
  · rw [if_pos hr]
    refine map_preserves_roundIff _ ?_ r h
    intro p
    by_cases hp : p.pod_index = idx <;> simp [hp]
  · rw [if_neg hr]
    exact h

theorem roundsClosure_cancel (rn idx : ℕ) (rounds : List Round)
    (hc : ∀ r ∈ rounds, roundIff r)
    {r : Round} {p : PodAssignment}
    (hr : findRound rounds rn = some r) (hp : findPod r.pods idx = some p)
    (hps : p.match_status = PodMatchStatus.in_progress) :
    ∀ r' ∈ cancel_rounds_update rn idx rounds, roundIff r' := by
  intro r' hr'
  unfold cancel_rounds_update at hr'
  rcases mem_updateFirstBy_cases _ _ _ r' hr' with h | ⟨a, ha, rfl⟩
  · exact hc r' h
  · rw [findRound] at hr
    rw [findPod] at hp
    rw [hr] at ha
    obtain rfl : r = a := by injection ha
    have hpmem : p ∈ r.pods := List.mem_of_find?_eq_some hp
    have hiff := hc r (List.mem_of_find?_eq_some hr)
    have hrstat : r.status ≠ RoundStatus.completed := by
      intro hcomp
      have h2 := (hiff.mp hcomp).2 p hpmem
      rw [hps] at h2
      cases h2
    have hfmem := updated_mem_updateFirstBy
      (fun p => p.pod_index == idx)
      (fun p => { p with match_status := PodMatchStatus.pending, match_id := none })
      r.pods p hp
    unfold roundIff
    constructor
    · intro hcomp
      exact absurd hcomp hrstat
    · rintro ⟨_, hall⟩
      have h2 := hall _ hfmem
      simp at h2

theorem roundsClosure_start_pod (rn idx : ℕ) (rounds : List Round)
    (hc : ∀ r ∈ rounds, roundIff r)
    {r : Round} {p : PodAssignment}
    (hr : findRound rounds rn = some r) (hp : findPod r.pods idx = some p) :
    ∀ r' ∈ start_pod_rounds_update rn idx rounds, roundIff r' := by
  intro r' hr'
  unfold start_pod_rounds_update at hr'
  rcases mem_updateFirstBy_cases _ _ _ r' hr' with h | ⟨a, ha, rfl⟩
  · exact hc r' h
  · rw [findRound] at hr
    rw [findPod] at hp
    rw [hr] at ha
    obtain rfl : r = a := by injection ha
    have hfmem := updated_mem_updateFirstBy
      (fun p => p.pod_index == idx)
      (fun p => { p with match_status := PodMatchStatus.in_progress })
      r.pods p hp
    unfold roundIff
    constructor
    · intro hcomp
      simp at hcomp
    · rintro ⟨_, hall⟩
      have h2 := hall _ hfmem
      simp at h2

theorem roundsClosure_complete_pod (rn idx : ℕ) (mid : String) (m : MatchDoc)
    (rrs : List RoundResult) (rounds : List Round)
    (hc : ∀ r ∈ rounds, roundIff r)
    {r : Round} {p : PodAssignment}
    (hr : findRound rounds rn = some r) (hp : findPod r.pods idx = some p)
    (hps : p.match_status ≠ PodMatchStatus.completed) :
    ∀ r' ∈ complete_pod_rounds_update rn idx mid m rrs rounds, roundIff r' := by
  intro r' hr'
  unfold complete_pod_rounds_update at hr'
  rcases mem_updateFirstBy_cases _ _ _ r' hr' with h | ⟨a, ha, rfl⟩
  · exact hc r' h
  · rw [findRound] at hr
    rw [findPod] at hp
    rw [hr] at ha
    obtain rfl : r = a := by injection ha
    have hpmem : p ∈ r.pods := List.mem_of_find?_eq_some hp
    have hiff := hc r (List.mem_of_find?_eq_some hr)
    have hrstat : r.status ≠ RoundStatus.completed := by
      intro hcomp
      exact hps ((hiff.mp hcomp).2 p hpmem)
    have hfmem := updated_mem_updateFirstBy
      (fun p => p.pod_index == idx) (complete_pod_update mid m) r.pods p hp
    change roundIff
      { r with
        pods := updateFirstBy (fun p => p.pod_index == idx) (complete_pod_update mid m)
          r.pods,
        results := r.results ++ rrs,
        status :=
          if (updateFirstBy (fun p => p.pod_index == idx) (complete_pod_update mid m)
              r.pods).all (fun pa => pa.match_status = PodMatchStatus.completed)
          then RoundStatus.completed else r.status }
    unfold roundIff
    by_cases hall : (updateFirstBy (fun p => p.pod_index == idx)
        (complete_pod_update mid m)
        r.pods).all (fun pa => pa.match_status = PodMatchStatus.completed) = true
    · constructor
      · intro _
        refine ⟨?_, fun pa hpa => by simpa using List.all_eq_true.mp hall pa hpa⟩
        intro hnil
        replace hnil : updateFirstBy (fun p => p.pod_index == idx)
            (complete_pod_update mid m) r.pods = [] := hnil
        have hlen := length_updateFirstBy
          (fun p => p.pod_index == idx) (complete_pod_update mid m) r.pods
        rw [hnil] at hlen
        have hfalse : p ∈ ([] : List PodAssignment) := by
          have hnp : r.pods = [] := List.length_eq_zero.mp hlen.symm
          rw [← hnp]
          exact hpmem
        cases hfalse
      · intro _
        show (if _ then RoundStatus.completed else r.status) = RoundStatus.completed
        rw [if_pos hall]
    · constructor
      · intro hcomp
        replace hcomp : (if (updateFirstBy (fun p => p.pod_index == idx)
            (complete_pod_update mid m)
            r.pods).all (fun pa => pa.match_status = PodMatchStatus.completed)
            then RoundStatus.completed else r.status) = RoundStatus.completed := hcomp
        rw [if_neg hall] at hcomp
        exact absurd hcomp hrstat
      · rintro ⟨_, hallp⟩
        exact absurd (List.all_eq_true.mpr (fun pa hpa => by simpa using hallp pa hpa)) hall

theorem roundsClosure_advance (nextn : ℕ) (pods : List PodAssignment)
    (hpods : ∀ p ∈ pods, p.match_status = PodMatchStatus.pending) (rounds : List Round)
    (hc : ∀ r ∈ rounds, roundIff r) :
    ∀ r' ∈ advance_rounds_update nextn pods rounds, roundIff r' := by
  intro r' hr'
  unfold advance_rounds_update at hr'
  rcases mem_updateFirstBy_cases _ _ _ r' hr' with h | ⟨a, _, rfl⟩
  · exact hc r' h
  · exact closure_round_of_pending _ (by simp) hpods

theorem eventInv_init (et cid : String) (ps : List String) (rc : ℕ) :
    eventInv (initial_event et cid ps rc) := by
  constructor
  · intro r hr
    rcases List.mem_map.mp hr with ⟨i, _, rfl⟩
    unfold roundIff
    simp
  · intro hc
    cases hc

theorem eventInv_preserved {e e' : Event} (hstep : EvStep e e') (hinv : eventInv e) :
    eventInv e' := by
  obtain ⟨hrc, _⟩ := hinv
  cases hstep with
  | start caller su shuffled e e' hperm h =>
    obtain ⟨hs, r0, rest, heq, rfl⟩ := start_tournament_ok_inv h
    constructor
    · intro r hr
      rcases List.mem_cons.mp hr with rfl | hmem
      · exact closure_round_of_pending _ (by simp) (round1_pods_status e.event_type shuffled)
      · exact hrc r (heq ▸ List.mem_cons_of_mem _ hmem)
    · intro hcomp
      replace hcomp : EventStatus.active = EventStatus.completed := hcomp
      cases hcomp
  | startPod caller su rn idx e e' h =>
    obtain ⟨hactive, hrn, r, heq, p, heqp, _, hst, rfl⟩ := start_pod_ok_inv h
    constructor
    · exact roundsClosure_start_pod rn idx e.rounds hrc heq heqp
    · intro hcomp
      replace hcomp : e.status = EventStatus.completed := hcomp
      rw [hactive] at hcomp
      cases hcomp
  | cancelPod caller rn idx e e' h =>
    obtain ⟨hactive, r, heq, p, heqp, hst, rfl⟩ := cancel_ok_inv h
    constructor
    · exact roundsClosure_cancel rn idx e.rounds hrc heq heqp hst
    · intro hcomp
      replace hcomp : e.status = EventStatus.completed := hcomp
      rw [hactive] at hcomp
      cases hcomp
  | setDeck rn idx pid info e e' h =>
    obtain ⟨hactive, rfl⟩ := set_deck_ok_inv h
    constructor
    · intro r' hr'
      rcases List.mem_map.mp hr' with ⟨r, hmem, rfl⟩
      exact roundIff_set_deck rn idx pid info r (hrc r hmem)
    · intro hcomp
      replace hcomp : e.status = EventStatus.completed := hcomp
      rw [hactive] at hcomp
      cases hcomp
  | completePod rn idx mid m alt e e' h =>
    obtain ⟨hactive, hrn, r, heq, p, heqp, hst, rfl⟩ := complete_pod_ok_inv h
    constructor
    · exact roundsClosure_complete_pod rn idx mid m
        (pod_round_results e.event_type m alt) e.rounds hrc heq heqp hst
    · intro hcomp
      replace hcomp : e.status = EventStatus.completed := hcomp
      rw [hactive] at hcomp
      cases hcomp
  | advance caller su ord e e' hperm h =>
    obtain ⟨hactive, r, heq, hst, hle, rfl⟩ := advance_ok_inv h
    constructor
    · exact roundsClosure_advance (e.current_round + 1)
        (next_round_pods_for e.event_type ord e.rounds)
        (next_round_pods_status e.event_type ord e.rounds) e.rounds hrc
    · intro hcomp
      replace hcomp : e.status = EventStatus.completed := hcomp
      rw [hactive] at hcomp
      cases hcomp
  | completeT caller su e e' h =>
    obtain ⟨hactive, r, heq, hst, rfl⟩ := complete_tournament_ok_inv h
    constructor
    · exact hrc
    · intro _
      rw [findRound] at heq
      refine ⟨r, List.mem_of_find?_eq_some heq, ?_, hst⟩
      have hbeq := List.find?_some heq
      show r.round_number = e.round_count
      exact eq_of_beq hbeq

theorem step_current_round_advance {e e' : Event} (hs : EvStep e e')
    (h1 : 1 ≤ e.current_round) (h2 : e'.current_round = e.current_round + 1) :
    (∃ r ∈ e.rounds, r.round_number = e.current_round ∧
      r.status = RoundStatus.completed) ∧
    e'.current_round ≤ e.round_count := by
  cases hs with
  | start caller su shuffled e e' hperm h =>
    obtain ⟨hs, r0, rest, heq, rfl⟩ := start_tournament_ok_inv h
    replace h2 : 1 = e.current_round + 1 := h2
    omega
  | startPod caller su rn idx e e' h =>
    obtain ⟨_, _, _, _, _, _, _, _, rfl⟩ := start_pod_ok_inv h
    replace h2 : e.current_round = e.current_round + 1 := h2
    omega
  | cancelPod caller rn idx e e' h =>
    obtain ⟨_, _, _, _, _, _, rfl⟩ := cancel_ok_inv h
    replace h2 : e.current_round = e.current_round + 1 := h2
    omega
  | setDeck rn idx pid info e e' h =>
    obtain ⟨_, rfl⟩ := set_deck_ok_inv h
    replace h2 : e.current_round = e.current_round + 1 := h2
    omega
  | completePod rn idx mid m alt e e' h =>
    obtain ⟨_, _, _, _, _, _, _, rfl⟩ := complete_pod_ok_inv h
    replace h2 : e.current_round = e.current_round + 1 := h2
    omega
  | advance caller su ord e e' hperm h =>
    obtain ⟨hactive, r, heq, hst, hle, rfl⟩ := advance_ok_inv h
    rw [findRound] at heq
    refine ⟨⟨r, List.mem_of_find?_eq_some heq, ?_, hst⟩, ?_⟩
    · have hbeq := List.find?_some heq
      show r.round_number = e.current_round
      exact eq_of_beq hbeq
    · show e.current_round + 1 ≤ e.round_count
      exact hle
  | completeT caller su e e' h =>
    obtain ⟨_, _, _, _, rfl⟩ := complete_tournament_ok_inv h
    replace h2 : e.current_round = e.current_round + 1 := h2
    omega

/-- C4: in every reachable tournament state, a round is `completed` exactly
when it has pods and every pod's match is completed; `current_round` advances
from `k ≥ 1` to `k+1` only once round `k` is completed and `k+1 ≤ round_count`;
and the event's status becomes `completed` only once the round numbered
`round_count` is completed. -/
theorem tournament_state_machine_invariants (e : Event) (h : EvReachable e) :
    (∀ r ∈ e.rounds,
      (r.status = RoundStatus.completed ↔
        r.pods ≠ [] ∧ ∀ p ∈ r.pods, p.match_status = PodMatchStatus.completed)) ∧
    (e.status = EventStatus.completed →
      ∃ r ∈ e.rounds, r.round_number = e.round_count ∧
        r.status = RoundStatus.completed) ∧
    (∀ e', EvStep e e' → 1 ≤ e.current_round →
      e'.current_round = e.current_round + 1 →
      (∃ r ∈ e.rounds, r.round_number = e.current_round ∧
        r.status = RoundStatus.completed) ∧
      e'.current_round ≤ e.round_count) := by
  have hinv : eventInv e := by
    induction h with
    | init et cid ps rc => exact eventInv_init et cid ps rc
    | step hr hs ih => exact eventInv_preserved hs ih
  exact ⟨hinv.1, hinv.2, fun e' hs h1 h2 => step_current_round_advance hs h1 h2⟩

/-- Witness for C4 at a concrete freshly created event. -/
theorem tournament_state_machine_invariants_witness :
    (∀ r ∈ (initial_event "tournament" "creator" ["a", "b", "c", "d"] 2).rounds,
      (r.status = RoundStatus.completed ↔
        r.pods ≠ [] ∧ ∀ p ∈ r.pods, p.match_status = PodMatchStatus.completed)) ∧
    ((initial_event "tournament" "creator" ["a", "b", "c", "d"] 2).status =
        EventStatus.completed →
      ∃ r ∈ (initial_event "tournament" "creator" ["a", "b", "c", "d"] 2).rounds,
        r.round_number = (initial_event "tournament" "creator" ["a", "b", "c", "d"] 2).round_count ∧
        r.status = RoundStatus.completed) ∧
    (∀ e', EvStep (initial_event "tournament" "creator" ["a", "b", "c", "d"] 2) e' →
      1 ≤ (initial_event "tournament" "creator" ["a", "b", "c", "d"] 2).current_round →
      e'.current_round = (initial_event "tournament" "creator" ["a", "b", "c", "d"] 2).current_round + 1 →
      (∃ r ∈ (initial_event "tournament" "creator" ["a", "b", "c", "d"] 2).rounds,
        r.round_number = (initial_event "tournament" "creator" ["a", "b", "c", "d"] 2).current_round ∧
        r.status = RoundStatus.completed) ∧
      e'.current_round ≤ (initial_event "tournament" "creator" ["a", "b", "c", "d"] 2).round_count) :=
  tournament_state_machine_invariants _
    (EvReachable.init "tournament" "creator" ["a", "b", "c", "d"] 2)

/-! ### Scoring theorems (C5, C6) -/

/-- C5: in a table-format match scored with the alt-win flag, pairing each
participant with their result in order: the declared winner gets exactly 4
alt-win points and 0 placement and 0 kill points; a non-winner with no
elimination order or order 1 gets exactly 2 placement points; a non-winner
with order greater than 1 gets the normal placement-table points; nobody
gets kill points; the −1 scoop penalty applies exactly to a recorded scoop;
and the total is the sum of the four components. -/
theorem alt_win_scoring (m : MatchDoc) :
    List.Forall₂
      (fun mp rr =>
        rr.player_id = mp.player_id ∧
        (mp.is_winner = true →
          rr.alt_win_points = 4 ∧ rr.placement_points = 0 ∧ rr.kill_points = 0) ∧
        (mp.is_winner = false →
          (mp.elimination_order = none ∨ mp.elimination_order = some 1) →
          rr.placement_points = 2) ∧
        (mp.is_winner = false → ∀ o, mp.elimination_order = some o → 1 < o →
          rr.placement_points = placement_map o) ∧
        rr.kill_points = 0 ∧
        rr.scoop_penalty = (if mp.elimination_type = some "scoop" then -1 else 0) ∧
        rr.total = rr.placement_points + rr.kill_points + rr.alt_win_points +
          rr.scoop_penalty)
      m.players (calculate_match_points m true) := by
  have hmap : calculate_match_points m true =
      m.players.map (fun mp =>
        let alt_win_points : ℤ := if mp.is_winner then 4 else 0
        let placement_points : ℤ :=
          if mp.is_winner then 0 else alt_placement mp.elimination_order
        let kill_points : ℤ := 0
        let scoop_penalty : ℤ := if mp.elimination_type = some "scoop" then -1 else 0
        { player_id := mp.player_id,
          placement_points := placement_points,
          kill_points := kill_points,
          alt_win_points := alt_win_points,
          scoop_penalty := scoop_penalty,
          total := placement_points + kill_points + alt_win_points + scoop_penalty }) := by
    unfold calculate_match_points
    rw [if_pos rfl]
  rw [hmap, List.forall₂_map_right_iff]
  rw [List.forall₂_same]
  intro mp _
  refine ⟨rfl, ?_, ?_, ?_, rfl, rfl, rfl⟩
  · intro hw
    simp [hw]
  · intro hw hord
    rcases hord with hord | hord <;> simp [hw, alt_placement, hord]
  · intro hw o hord hgt
    simp only [hw, hord, alt_placement]
    rw [if_neg (by omega : ¬ o = 1)]
    simp

/-- The specification's kill count, amended to count every participant
(not only *other* participants) whose eliminated-by reference equals the
given player id and whose elimination kind is `"kill"`. -/
def spec_kill_count (players : List MatchPlayer) (pid : String) : ℤ :=
  ((players.filter (fun q => q.eliminated_by_player_id = some pid ∧
      q.elimination_type = some "kill")).length : ℤ)

/-- The kill count exactly as the specification words it: the number of
*other* participants (position `j ≠ i`) whose eliminated-by reference equals
participant `i`'s id and whose elimination kind is `"kill"`. -/
def spec_other_kill_count (players : List MatchPlayer) (i : ℕ) : ℤ :=
  ((players.enum.filter (fun jq => jq.1 ≠ i ∧
      jq.2.eliminated_by_player_id = some ((players.getD i default).player_id) ∧
      jq.2.elimination_type = some "kill")).length : ℤ)

theorem lookup_dictInsert_self {β : Type} (l : List (String × β)) (k : String) (v : β) :
    (dictInsert l k v).lookup k = some v := by
  induction l with
  | nil => simp [dictInsert, List.lookup]
  | cons q t ih =>
    by_cases hq : q.1 = k
    · simp [dictInsert, hq, List.lookup]
    · simp only [dictInsert, if_neg hq, List.lookup]
      rw [show (k == q.1) = false from beq_eq_false_iff_ne.mpr (fun h => hq h.symm)]
      exact ih

theorem lookup_dictInsert_ne {β : Type} (l : List (String × β)) (k : String) (v : β)
    (k' : String) (h : k' ≠ k) : (dictInsert l k v).lookup k' = l.lookup k' := by
  induction l with
  | nil => simp [dictInsert, List.lookup, beq_eq_false_iff_ne.mpr h]
  | cons q t ih =>
    by_cases hq : q.1 = k
    · simp only [dictInsert, if_pos hq, List.lookup]
      rw [show (k' == k) = false from beq_eq_false_iff_ne.mpr h,
        show (k' == q.1) = false from
          beq_eq_false_iff_ne.mpr (fun hh => h (hh.trans hq))]
    · simp only [dictInsert, if_neg hq, List.lookup]
      cases hk : (k' == q.1) with
      | true => rfl
      | false => exact ih

theorem kill_step_lookup (pid : String) (hpid : pid ≠ "")
    (acc : List (String × ℤ)) (q : MatchPlayer) :
    lookupD (kill_step acc q) pid 0 =
      lookupD acc pid 0 +
        (if q.eliminated_by_player_id = some pid ∧ q.elimination_type = some "kill"
          then 1 else 0) := by
  unfold kill_step
  by_cases hc : q.eliminated_by_player_id ≠ none ∧
      q.eliminated_by_player_id ≠ some "" ∧ q.elimination_type = some "kill"
  · rw [if_pos hc]
    obtain ⟨hne, hnee, hkill⟩ := hc
    obtain ⟨eb, heb⟩ := Option.ne_none_iff_exists.mp hne
    have hgetD : q.eliminated_by_player_id.getD "" = eb := by rw [← heb]; rfl
    rw [hgetD]
    by_cases heq : eb = pid
    · subst heq
      have h1 : lookupD (dictInsert acc eb (lookupD acc eb 0 + 1)) eb 0 =
          lookupD acc eb 0 + 1 := by
        unfold lookupD
        rw [lookup_dictInsert_self]
      rw [h1, if_pos ⟨heb.symm, hkill⟩]
    · have h1 : lookupD (dictInsert acc eb (lookupD acc eb 0 + 1)) pid 0 =
          lookupD acc pid 0 := by
        unfold lookupD
        rw [lookup_dictInsert_ne _ _ _ _ (fun h => heq h.symm)]
      have hcond : ¬ (q.eliminated_by_player_id = some pid ∧
          q.elimination_type = some "kill") := by
        rintro ⟨h2, _⟩
        rw [← heb] at h2
        exact heq (by injection h2)
      rw [h1, if_neg hcond]
      ring
  · rw [if_neg hc]
    have hcond : ¬ (q.eliminated_by_player_id = some pid ∧
        q.elimination_type = some "kill") := by
      rintro ⟨h2, h3⟩
      refine hc ⟨by rw [h2]; exact fun hh => Option.noConfusion hh, ?_, h3⟩
      rw [h2]
      intro hh
      exact hpid (by injection hh)
    rw [if_neg hcond]
    ring

theorem kill_counts_aux (pid : String) (hpid : pid ≠ "") :
    ∀ (players : List MatchPlayer) (acc : List (String × ℤ)),
      lookupD (players.foldl kill_step acc) pid 0 =
      lookupD acc pid 0 +
        ((players.filter (fun q => q.eliminated_by_player_id = some pid ∧
          q.elimination_type = some "kill")).length : ℤ) := by
  intro players
  induction players with
  | nil => intro acc; simp
  | cons q t ih =>
    intro acc
    simp only [List.foldl_cons, List.filter_cons]
    rw [ih (kill_step acc q), kill_step_lookup pid hpid acc q]
    by_cases hcond : q.eliminated_by_player_id = some pid ∧
        q.elimination_type = some "kill"
    · rw [if_pos hcond, if_pos (by simpa using hcond)]
      push_cast [List.length_cons]
      ring
    · rw [if_neg hcond, if_neg (by simpa using hcond)]
      ring

theorem kill_points_eq_spec (players : List MatchPlayer) (pid : String) (hpid : pid ≠ "") :
    lookupD (kill_counts players) pid 0 = spec_kill_count players pid := by
  unfold kill_counts spec_kill_count
  rw [kill_counts_aux pid hpid players []]
  simp [lookupD, List.lookup]

/-- C6 (amended): in a table-format match scored without the alt-win flag,
pairing each participant with their result in order: placement points come
from the fixed table applied to the elimination order (0 with no recorded
order); kill points equal the number of participants — the claim's "other
participants" amended to include a degenerately self-attributed kill — whose
(truthy) eliminated-by reference equals this participant's nonempty id and
whose kind is `"kill"`; the scoop penalty is −1 exactly for a recorded
scoop; alt-win points are 0; and the total is the sum of the components. -/
theorem normal_scoring (m : MatchDoc) :
    List.Forall₂
      (fun mp rr =>
        rr.player_id = mp.player_id ∧
        (mp.elimination_order = none → rr.placement_points = 0) ∧
        (∀ o, mp.elimination_order = some o → rr.placement_points = placement_map o) ∧
        (mp.player_id ≠ "" → rr.kill_points = spec_kill_count m.players mp.player_id) ∧
        rr.alt_win_points = 0 ∧
        rr.scoop_penalty = (if mp.elimination_type = some "scoop" then -1 else 0) ∧
        rr.total = rr.placement_points + rr.kill_points + rr.alt_win_points +
          rr.scoop_penalty)
      m.players (calculate_match_points m false) := by
  have hmap : calculate_match_points m false =
      m.players.map (fun mp =>
        let placement_points : ℤ :=
          match mp.elimination_order with
          | none => 0
          | some o => if o = 0 then 0 else placement_map o
        let kill_points : ℤ := lookupD (kill_counts m.players) mp.player_id 0
        let scoop_penalty : ℤ := if mp.elimination_type = some "scoop" then -1 else 0
        { player_id := mp.player_id,
          placement_points := placement_points,
          kill_points := kill_points,
          alt_win_points := 0,
          scoop_penalty := scoop_penalty,
          total := placement_points + kill_points + scoop_penalty }) := by
    unfold calculate_match_points
    rw [if_neg (by simp)]
  rw [hmap, List.forall₂_map_right_iff, List.forall₂_same]
  intro mp _
  refine ⟨rfl, ?_, ?_, ?_, rfl, rfl, by simp⟩
  · intro hord
    simp [hord]
  · intro o hord
    simp only [hord]
    by_cases ho : o = 0
    · subst ho
      simp [placement_map]
    · simp [ho]
  · intro hpid
    exact kill_points_eq_spec m.players mp.player_id hpid

/-- C6 counterexample: a participant recorded as eliminated by themself with
kind `"kill"` receives a kill point from the code, while the claim's "number
of other participants" is zero for them. -/
theorem normal_scoring_self_kill_counterexample :
    (((calculate_match_points
        (MatchDoc.mk
          [{ player_id := "a", eliminated_by_player_id := some "a",
             elimination_type := some "kill" },
           { player_id := "b", is_winner := true }] "b")
        false).getD 0 default).kill_points = 1) ∧
    (spec_other_kill_count
        [{ player_id := "a", eliminated_by_player_id := some "a",
           elimination_type := some "kill" },
         { player_id := "b", is_winner := true }] 0 = 0) ∧
    ¬ (((calculate_match_points
        (MatchDoc.mk
          [{ player_id := "a", eliminated_by_player_id := some "a",
             elimination_type := some "kill" },
           { player_id := "b", is_winner := true }] "b")
        false).getD 0 default).kill_points =
      spec_other_kill_count
        [{ player_id := "a", eliminated_by_player_id := some "a",
           elimination_type := some "kill" },
         { player_id := "b", is_winner := true }] 0) := by
  refine ⟨?_, ?_, ?_⟩ <;> decide

/-! ### Swiss pairing covers every player (C7) -/

theorem enum_map_snd_comp {α β : Type} (l : List α) (h : α → β) :
    l.enum.map (fun ip => h ip.2) = l.map h := by
  rw [show (fun (ip : ℕ × α) => h ip.2) = (h ∘ Prod.snd) from rfl]
  rw [← List.map_map, List.enum_map_snd]

theorem getD_cons_eraseIdx_perm (l : List String) (j : ℕ) (hj : j < l.length) :
    (l.getD j "" :: l.eraseIdx j).Perm l := by
  induction l generalizing j with
  | nil => cases hj
  | cons a t ih =>
    cases j with
    | zero => simp [List.eraseIdx]
    | succ j =>
      have hj' : j < t.length := by simpa using hj
      simp only [List.getD_cons_succ, List.eraseIdx_cons_succ]
      exact (List.Perm.swap a (t.getD j "") (t.eraseIdx j)).trans ((ih j hj').cons a)

theorem popPartner_perm (prev : List (Finset String)) (p1 : String)
    (rest : List String) (h : rest ≠ []) :
    ((popPartner prev p1 rest).1 :: (popPartner prev p1 rest).2).Perm rest := by
  unfold popPartner
  have hj : (if rest.findIdx (fun p2 => !(prev.contains ({p1, p2} : Finset String))) <
        rest.length
      then rest.findIdx (fun p2 => !(prev.contains ({p1, p2} : Finset String)))
      else 0) < rest.length := by
    split_ifs with hi
    · exact hi
    · exact List.length_pos.mpr h
  exact getD_cons_eraseIdx_perm rest _ hj

theorem swissPairLoop_perm (prev : List (Finset String)) :
    ∀ (n : ℕ) (l : List String), l.length = n → l.length % 2 = 0 →
      (((swissPairLoop prev l).map (fun q => [q.1, q.2])).flatten).Perm l := by
  intro n
  induction n using Nat.strong_induction_on with
  | _ n ih =>
    intro l hlen heven
    match l with
    | [] => simp [swissPairLoop]
    | [x] => simp at heven
    | p1 :: p2 :: rest =>
      rw [swissPairLoop]
      have hne : (p2 :: rest) ≠ [] := by simp
      have hlen2 : (popPartner prev p1 (p2 :: rest)).2.length = rest.length := by
        rw [popPartner_length prev p1 (p2 :: rest) hne]
        simp
      have hlt : (popPartner prev p1 (p2 :: rest)).2.length < n := by
        rw [hlen2]
        simp only [List.length_cons] at hlen
        omega
      have heven2 : (popPartner prev p1 (p2 :: rest)).2.length % 2 = 0 := by
        rw [hlen2]
        simp only [List.length_cons] at heven
        omega
      have ihp := ih (popPartner prev p1 (p2 :: rest)).2.length hlt
        (popPartner prev p1 (p2 :: rest)).2 rfl heven2
      have hpop := popPartner_perm prev p1 (p2 :: rest) hne
      simp only [List.map_cons, List.flatten_cons]
      exact ((ihp.cons (popPartner prev p1 (p2 :: rest)).1).cons p1).trans (hpop.cons p1)

/-- C7: for every even-length ordering of the standings and every history of
previous rounds (including one where every pair has already played), the
Swiss pairing returns 2-player pods whose concatenated player lists are a
permutation of the input — every player is paired exactly once and no player
is dropped; totality of `swissPairLoop` is the termination argument. -/
theorem swiss_pair_covers_all_players (order : List String)
    (previous_rounds : List Round) (heven : order.length % 2 = 0) :
    (((swiss_pair order previous_rounds).map (fun pa => pa.player_ids)).flatten).Perm
      order ∧
    ∀ pa ∈ swiss_pair order previous_rounds,
      pa.player_ids.length = 2 ∧ pa.match_status = .pending := by
  constructor
  · have hmap : (swiss_pair order previous_rounds).map (fun pa => pa.player_ids) =
        (swissPairLoop (previous_pairings previous_rounds) order).map
          (fun q => [q.1, q.2]) := by
      unfold swiss_pair
      rw [List.map_map]
      exact enum_map_snd_comp
        (swissPairLoop (previous_pairings previous_rounds) order)
        (fun q => [q.1, q.2])
    rw [hmap]
    exact swissPairLoop_perm (previous_pairings previous_rounds) order.length order rfl
      heven
  · intro pa hpa
    rcases List.mem_map.mp hpa with ⟨ip, _, rfl⟩
    exact ⟨rfl, rfl⟩

/-- Witness for C7: four players where every possible pair has already
played; the forced-rematch fallback still pairs everyone. -/
theorem swiss_pair_covers_all_players_witness :
    (["a", "b", "c", "d"] : List String).length % 2 = 0 ∧
    ((((swiss_pair ["a", "b", "c", "d"]
        [Round.mk 1 [PodAssignment.mk 0 ["a", "b"] none .completed [],
                     PodAssignment.mk 1 ["c", "d"] none .completed []] [] .completed,
         Round.mk 2 [PodAssignment.mk 0 ["a", "c"] none .completed [],
                     PodAssignment.mk 1 ["b", "d"] none .completed []] [] .completed,
         Round.mk 3 [PodAssignment.mk 0 ["a", "d"] none .completed [],
                     PodAssignment.mk 1 ["b", "c"] none .completed []] [] .completed]).map
        (fun pa => pa.player_ids)).flatten).Perm ["a", "b", "c", "d"] ∧
      ∀ pa ∈ swiss_pair ["a", "b", "c", "d"]
        [Round.mk 1 [PodAssignment.mk 0 ["a", "b"] none .completed [],
                     PodAssignment.mk 1 ["c", "d"] none .completed []] [] .completed,
         Round.mk 2 [PodAssignment.mk 0 ["a", "c"] none .completed [],
                     PodAssignment.mk 1 ["b", "d"] none .completed []] [] .completed,
         Round.mk 3 [PodAssignment.mk 0 ["a", "d"] none .completed [],
                     PodAssignment.mk 1 ["b", "c"] none .completed []] [] .completed],
        pa.player_ids.length = 2 ∧ pa.match_status = .pending) :=
  ⟨by decide,
    swiss_pair_covers_all_players ["a", "b", "c", "d"] _ (by decide)⟩

/-! ### The cancel endpoint (C10) -/

theorem getD_updateFirstBy_find {α : Type} [Inhabited α] (q : α → Bool) (f : α → α) :
    ∀ (l : List α) (i : ℕ),
      (updateFirstBy q f l).getD i default = l.getD i default ∨
      (l.find? q = some (l.getD i default) ∧
        (updateFirstBy q f l).getD i default = f (l.getD i default)) := by
  intro l
  induction l with
  | nil => intro i; left; rfl
  | cons a t ih =>
    intro i
    by_cases hq : q a = true
    · rw [show updateFirstBy q f (a :: t) = f a :: t from by simp [updateFirstBy, hq]]
      cases i with
      | zero =>
        right
        refine ⟨?_, ?_⟩
        · rw [List.getD_cons_zero]
          exact List.find?_cons_of_pos t hq
        · rw [List.getD_cons_zero, List.getD_cons_zero]
      | succ i =>
        left
        rw [List.getD_cons_succ, List.getD_cons_succ]
    · rw [show updateFirstBy q f (a :: t) = a :: updateFirstBy q f t from by
        simp [updateFirstBy, hq]]
      cases i with
      | zero =>
        left
        rw [List.getD_cons_zero, List.getD_cons_zero]
      | succ i =>
        rw [List.getD_cons_succ, List.getD_cons_succ, List.find?_cons_of_neg t hq]
        exact ih i

/-- A concrete active event with one in-progress pod, used to witness the
cancel-endpoint characterization. -/
def cancelWitnessEvent : Event :=
  { event_type := "tournament", creator_id := "alice", status := .active,
    current_round := 1, round_count := 1, players := ["a", "b"],
    rounds := [Round.mk 1
      [PodAssignment.mk 0 ["a", "b"] (some "m1") .in_progress []] [] .in_progress],
    standings := [] }

/-- C10: `cancel_pod_match` ignores the caller entirely (no participant or
creator check, unlike `start_pod_match`, which rejects a caller outside the
pod); it fails exactly when the event is missing or not active, the round or
pod is not found, or the pod is not `in_progress`; and on success it only
resets that pod to `pending` with its match id cleared, leaving every other
field and every other pod unchanged. -/
theorem cancel_pod_match_characterization :
    (∀ (c1 c2 : String) (ev? : Option Event) (rn idx : ℕ),
      cancel_pod_match c1 ev? rn idx = cancel_pod_match c2 ev? rn idx) ∧
    (∀ (c : String) (rn idx : ℕ),
      cancel_pod_match c none rn idx = .error (.notFound "Event not found")) ∧
    (∀ (c : String) (e : Event) (rn idx : ℕ),
      (∃ e', cancel_pod_match c (some e) rn idx = .ok e') ↔
        (e.status = .active ∧ ∃ r, findRound e.rounds rn = some r ∧
          ∃ p, findPod r.pods idx = some p ∧ p.match_status = .in_progress)) ∧
    (∀ (c : String) (e e' : Event) (rn idx : ℕ),
      cancel_pod_match c (some e) rn idx = .ok e' →
      e'.event_type = e.event_type ∧ e'.creator_id = e.creator_id ∧
      e'.status = e.status ∧ e'.current_round = e.current_round ∧
      e'.round_count = e.round_count ∧ e'.players = e.players ∧
      e'.standings = e.standings ∧
      e'.rounds.length = e.rounds.length ∧
      (∀ i,
        (e'.rounds.getD i default).round_number =
          (e.rounds.getD i default).round_number ∧
        (e'.rounds.getD i default).status = (e.rounds.getD i default).status ∧
        (e'.rounds.getD i default).results = (e.rounds.getD i default).results ∧
        (e'.rounds.getD i default).pods.length =
          (e.rounds.getD i default).pods.length ∧
        ∀ j,
          ((e'.rounds.getD i default).pods.getD j default =
            (e.rounds.getD i default).pods.getD j default ∨
          (((e.rounds.getD i default).pods.getD j default).match_status =
              .in_progress ∧
            (e'.rounds.getD i default).pods.getD j default =
              { (e.rounds.getD i default).pods.getD j default with
                match_status := .pending, match_id := none })))) ∧
    (∀ (c : String) (e : Event) (rn idx : ℕ) (r : Round) (p : PodAssignment),
      e.status = .active → rn = e.current_round →
      findRound e.rounds rn = some r → findPod r.pods idx = some p →
      c ∉ p.player_ids →
      start_pod_match c false (some e) rn idx =
        .error (.forbidden "You must be in this pod to start the match")) := by
  refine ⟨fun c1 c2 ev? rn idx => rfl, fun c rn idx => rfl, ?_, ?_, ?_⟩
  · intro c e rn idx
    constructor
    · rintro ⟨e', h⟩
      obtain ⟨hactive, r, hr, p, hp, hps, _⟩ := cancel_ok_inv h
      exact ⟨hactive, r, hr, p, hp, hps⟩
    · rintro ⟨hactive, r, hr, p, hp, hps⟩
      refine ⟨{ e with rounds := cancel_rounds_update rn idx e.rounds }, ?_⟩
      unfold cancel_pod_match
      simp [hactive, hr, hp, hps]
  · intro c e e' rn idx h
    obtain ⟨hactive, r0, hr0, p0, hp0, hps0, rfl⟩ := cancel_ok_inv h
    refine ⟨rfl, rfl, rfl, rfl, rfl, rfl, rfl, ?_, ?_⟩
    · exact length_updateFirstBy _ _ e.rounds
    · intro i
      show (((cancel_rounds_update rn idx e.rounds).getD i default).round_number = _) ∧ _
      unfold cancel_rounds_update
      rcases getD_updateFirstBy_find (fun r => r.round_number == rn)
        (fun r => { r with
          pods := updateFirstBy (fun p => p.pod_index == idx)
            (fun p => { p with match_status := .pending, match_id := none }) r.pods })
        e.rounds i with hsame | ⟨hfound, hupd⟩
      · rw [hsame]
        exact ⟨rfl, rfl, rfl, rfl, fun j => Or.inl rfl⟩
      · rw [hupd]
        refine ⟨rfl, rfl, rfl, length_updateFirstBy _ _ _, ?_⟩
        intro j
        rw [findRound] at hr0
        have hreq : e.rounds.getD i default = r0 := by
          rw [hr0] at hfound
          injection hfound with hh
          exact hh.symm
        rcases getD_updateFirstBy_find (fun p => p.pod_index == idx)
          (fun p => { p with match_status := .pending, match_id := none })
          (e.rounds.getD i default).pods j with hpsame | ⟨hpfound, hpupd⟩
        · exact Or.inl hpsame
        · right
          rw [findPod] at hp0
          have hpeq : (e.rounds.getD i default).pods.getD j default = p0 := by
            rw [hreq]
            rw [hreq] at hpfound
            rw [hp0] at hpfound
            injection hpfound with hh
            exact hh.symm
          refine ⟨by rw [hpeq]; exact hps0, hpupd⟩
  · intro c e rn idx r p hactive hrn hr hp hmem
    unfold start_pod_match
    simp [hactive, hrn.symm, hr, hp, hmem]

/-- Witness for C10: an outside caller can cancel the in-progress pod of the
concrete event, while the same caller is forbidden from starting it. -/
theorem cancel_pod_match_characterization_witness :
    (∃ e', cancel_pod_match "mallory" (some cancelWitnessEvent) 1 0 = .ok e') ∧
    start_pod_match "mallory" false (some cancelWitnessEvent) 1 0 =
      .error (.forbidden "You must be in this pod to start the match") := by
  constructor
  · exact (cancel_pod_match_characterization.2.2.1 "mallory" cancelWitnessEvent 1 0).mpr
      ⟨rfl,
        Round.mk 1 [PodAssignment.mk 0 ["a", "b"] (some "m1") .in_progress []]
          [] .in_progress,
        by decide,
        PodAssignment.mk 0 ["a", "b"] (some "m1") .in_progress [],
        by decide, rfl⟩
  · exact cancel_pod_match_characterization.2.2.2.2 "mallory" cancelWitnessEvent 1 0
      (Round.mk 1 [PodAssignment.mk 0 ["a", "b"] (some "m1") .in_progress []]
        [] .in_progress)
      (PodAssignment.mk 0 ["a", "b"] (some "m1") .in_progress [])
      rfl rfl (by decide) (by decide) (by decide)

/-! ### Pod balance analytics (C8)

`get_pod_balance` in `analytics.py` receives the analyzed match window; we
embed it as a pure function of the list of winner ids of those matches
(one entry per match, most recent window already selected by the caller).
`Counter(...).values()` becomes the multiset of occurrence counts of the
distinct winners; `sorted` becomes `mergeSort`; float arithmetic on the
Gini coefficient becomes exact `ℚ` arithmetic; `round` is nearest-integer
rounding. The endpoint's returned `score` and `status` fields are the pair
produced here. -/

/-- The Gini computation of `get_pod_balance` applied to the sorted win
counts: `0` when there are at most one value, else
`2*Σ (i+1)*w_i / (n*Σ w) - (n+1)/n`. -/
def giniOf (wins : List ℕ) : ℚ :=
  let n := wins.length
  if n ≤ 1 then 0
  else 2 * ((wins.enum.map (fun p => ((p.1 : ℚ) + 1) * (p.2 : ℚ))).sum) /
      ((n : ℚ) * ((wins.sum : ℕ) : ℚ)) - ((n : ℚ) + 1) / (n : ℚ)

/-- Occurrence counts of the distinct winners, i.e. `Counter(winners).values()`. -/
def winValues (winners : List String) : List ℕ :=
  winners.dedup.map (fun w => winners.count w)

/-- `round((1 - gini) * 100)` on the sorted win counts. -/
def balance_score_of (winners : List String) : ℤ :=
  round ((1 - giniOf ((winValues winners).mergeSort (fun a b => decide (a ≤ b)))) * 100)

/-- The status classification of `get_pod_balance`. -/
def balance_status (balance_score : ℤ) : String :=
  if balance_score ≥ 70 then "Healthy"
  else if balance_score ≥ 50 then "Uneven"
  else "Dominated"

/-- `get_pod_balance` (analytics.py): returns the `(score, status)` pair. -/
def get_pod_balance (winners : List String) : ℤ × String :=
  if winners.length < 5 then (0, "Insufficient data")
  else if (winValues winners).sum = 0 then (100, "Healthy")
  else (balance_score_of winners, balance_status (balance_score_of winners))

/-- C8: divergence. On a window of 5 matches all won by the same player the
claim expects Gini = 1 and status "Dominated", but the code's `n <= 1`
branch forces the Gini coefficient to 0, so the score is 100 and the status
is "Healthy". -/
theorem pod_balance_single_winner_bug :
    get_pod_balance (List.replicate 5 "alice") = (100, "Healthy") ∧
    giniOf ((winValues (List.replicate 5 "alice")).mergeSort
      (fun a b => decide (a ≤ b))) = 0 ∧
    (get_pod_balance (List.replicate 5 "alice")).2 ≠ "Dominated" := by
  have h1 : winValues (List.replicate 5 "alice") = [5] := by decide
  have hms : [5].mergeSort (fun a b : ℕ => decide (a ≤ b)) = [5] :=
    List.perm_singleton.mp (List.mergeSort_perm [5] _)
  have h2 : giniOf [5] = 0 := by rfl
  have hscore : balance_score_of (List.replicate 5 "alice") = 100 := by
    unfold balance_score_of
    rw [h1, hms, h2]
    have h3 : ((1 : ℚ) - 0) * 100 = ((100 : ℤ) : ℚ) := by norm_num
    rw [h3, round_intCast]
  have hmain : get_pod_balance (List.replicate 5 "alice") = (100, "Healthy") := by
    unfold get_pod_balance
    rw [if_neg (by decide), if_neg (by decide), hscore]
    rfl
  refine ⟨hmain, ?_, ?_⟩
  · rw [h1, hms]; exact h2
  · rw [hmain]; decide

end MtgLeaderboard
